import Mathlib

/-!
# BoardRow: the per-row modifier engine of `src/BoardRow.h`

A shallow embedding of the C++ class `BoardRow` and a verification of the
row-strength properties stated about it.

Modelling conventions.

* `int` is modelled by the unbounded `Int`: signed overflow is undefined
  behaviour in C++, so the theorems speak about runs without overflow.
* `vector<UnitCard*> cards` is modelled twice. `BoardRow` holds a
  `List UnitCard` of card values; it describes the rows whose members are
  distinct card objects, where writing through one pointer changes exactly one
  member. `HeapRow` holds the pointers themselves, as addresses into a store
  of card objects, and so also describes a row on which the same object
  stands more than once; the membership frame is stated on it. `add_view`
  relates the two for a card that is not yet a member.
* A member function that mutates the row is a function `BoardRow → BoardRow`;
  `getRowStr`, which both mutates and returns, yields a pair.
* An index loop `for (int i = 0; i < cards.size(); i++)` is `forLoop` over the
  number of members, with the loop body as a state transformer; no loop of
  this class changes the number of members while it runs.
-/

namespace Team7

/-- Modelled from the spec: the card type `UnitCard` is declared in `Cards.h`,
which is outside the sources at hand. Following the card contract (§3, §6.1):
`strength` is the immutable base strength (the public field the row reads as
`card->strength`), `currentStrength` is the mutable cache read by
`getStrength()` and overwritten by `setStrength()`, `isHero` is the hero flag
and `ability` the integer ability code (`1` is the morale self-penalty). -/
structure UnitCard where
  strength : Int
  currentStrength : Int
  isHero : Bool
  ability : Int
deriving DecidableEq, Repr

namespace UnitCard

/-- Modelled from the spec: `getStrength()` of `Cards.h`, reading the
current-strength cache. -/
def getStrength (c : UnitCard) : Int := c.currentStrength

/-- Modelled from the spec: `setStrength(v)` of `Cards.h`, overwriting the
current-strength cache and nothing else. -/
def setStrength (c : UnitCard) (v : Int) : UnitCard :=
  { c with currentStrength := v }

end UnitCard

/-- The fields of `class BoardRow`. `rowPosition` is left uninitialised by the
constructor, which is rendered by `none`. -/
structure BoardRow where
  cards : List UnitCard
  rowPosition : Option Int
  buffed : Bool
  deBuffed : Bool
  morale : Int
  rowStrength : Int
deriving DecidableEq, Repr

/-- Run `body 0`, `body 1`, ..., `body (n-1)` in this order: the index loop
`for (int i = 0; i < n; i++)`. -/
def forLoop {σ : Type} (body : Nat → σ → σ) : Nat → σ → σ
  | 0, s => s
  | n + 1, s => body n (forLoop body n s)

namespace BoardRow

/-- The constructor `BoardRow::BoardRow()`: all modifier state zeroed. -/
def new : BoardRow :=
  { cards := [], rowPosition := none, buffed := false, deBuffed := false,
    morale := 0, rowStrength := 0 }

/-- The member function `BoardRow::setRow`. -/
def setRow (r : BoardRow) (pos : Int) : BoardRow :=
  { r with rowPosition := some pos }

/-- The three `if` statements that `BoardRow::add` runs on a card before it
is pushed onto the vector. -/
def addEffects (r : BoardRow) (card : UnitCard) : UnitCard :=
  if !card.isHero then
    let c1 := if r.deBuffed then card.setStrength 1 else card
    let c2 := if r.morale ≥ 1 then c1.setStrength (c1.getStrength + r.morale) else c1
    let c3 := if r.buffed then c2.setStrength (c2.getStrength * 2) else c2
    c3
  else card

/-- The member function `BoardRow::add`, for a card object that is not yet a
member of the row (`HeapRow.add` is the same function on pointers). -/
def add (r : BoardRow) (card : UnitCard) : BoardRow :=
  { r with cards := r.cards ++ [r.addEffects card] }

/-- The body of the range-for loop of `BoardRow::moraleBoost`, for one card,
with the row's flags and morale count. -/
def moraleBoostCard (buffed deBuffed : Bool) (morale : Int) (c : UnitCard) : UnitCard :=
  if !c.isHero && (!buffed || deBuffed) && c.ability != 1 then
    if deBuffed then c.setStrength (1 + morale)
    else c.setStrength (c.strength + morale)
  else if !c.isHero && (!buffed || deBuffed) && c.ability == 1 then
    if deBuffed then c.setStrength (1 + (morale - 1))
    else c.setStrength (c.strength + (morale - 1))
  else if !c.isHero && buffed && c.ability != 1 then
    c.setStrength (c.strength * 2 + (2 * morale))
  else if !c.isHero && buffed && c.ability == 1 then
    c.setStrength (c.strength * 2 + (2 * morale - 2))
  else c

/-- The member function `BoardRow::moraleBoost`: the loop visits every card once and reads only
row fields that it does not write. -/
def moraleBoost (r : BoardRow) : BoardRow :=
  { r with cards := r.cards.map (moraleBoostCard r.buffed r.deBuffed r.morale) }

/-- The statement `cards.at(i)->setStrength(v)`. -/
def setStrengthAt (r : BoardRow) (i : Nat) (v : Int) : BoardRow :=
  match r.cards[i]? with
  | some c => { r with cards := r.cards.set i (c.setStrength v) }
  | none => r

/-- The statement `rowStrength += cards.at(i)->getStrength()`. -/
def accumulateAt (r : BoardRow) (i : Nat) : BoardRow :=
  match r.cards[i]? with
  | some c => { r with rowStrength := r.rowStrength + c.getStrength }
  | none => r

/-- The loop body of `BoardRow::buff`. The call of `moraleBoost` sits inside
the braces of the debuffed branch, hence inside the loop. -/
def buffBody (i : Nat) (r : BoardRow) : BoardRow :=
  match r.cards[i]? with
  | none => r
  | some c =>
    let r1 :=
      if !c.isHero && !r.deBuffed then r.setStrengthAt i (c.strength * 2)
      else if !c.isHero && r.deBuffed then
        let r2 := r.setStrengthAt i 2
        if r2.morale ≥ 1 then r2.moraleBoost else r2
      else r
    r1.accumulateAt i

/-- The member function `BoardRow::buff`. -/
def buff (r : BoardRow) : BoardRow :=
  let r1 := { r with rowStrength := 0 }
  let r2 := forLoop buffBody r1.cards.length r1
  { r2 with buffed := true }

/-- The loop body of `BoardRow::deBuff`. -/
def deBuffBody (i : Nat) (r : BoardRow) : BoardRow :=
  match r.cards[i]? with
  | none => r
  | some c =>
    let r1 :=
      if !c.isHero && !r.buffed then r.setStrengthAt i 1
      else if !c.isHero && r.buffed then r.setStrengthAt i 2
      else r
    r1.accumulateAt i

/-- The member function `BoardRow::deBuff`. -/
def deBuff (r : BoardRow) : BoardRow :=
  let r1 := { r with rowStrength := 0 }
  let r2 := forLoop deBuffBody r1.cards.length r1
  let r3 := { r2 with deBuffed := true }
  if r3.morale ≥ 1 then r3.moraleBoost else r3

/-- The loop body of `BoardRow::clear`. -/
def clearBody (i : Nat) (r : BoardRow) : BoardRow :=
  match r.cards[i]? with
  | none => r
  | some c =>
    let r1 := if !c.isHero then r.setStrengthAt i c.strength else r
    r1.accumulateAt i

/-- The member function `BoardRow::clear`. -/
def clear (r : BoardRow) : BoardRow :=
  let r1 := { r with rowStrength := 0 }
  let r2 := forLoop clearBody r1.cards.length r1
  let r3 := { r2 with deBuffed := false }
  let r4 := if r3.buffed then r3.buff else r3
  if r4.morale ≥ 1 then r4.moraleBoost else r4

/-- The member function `BoardRow::getDeBuffed`. -/
def getDeBuffed (r : BoardRow) : Bool := r.deBuffed

/-- The member function `BoardRow::getBuffed`. -/
def getBuffed (r : BoardRow) : Bool := r.buffed

/-- The member function `BoardRow::addMorale`. -/
def addMorale (r : BoardRow) : BoardRow :=
  moraleBoost { r with morale := r.morale + 1 }

/-- The member function `BoardRow::getRowStr`: the returned value and the row after the call. -/
def getRowStr (r : BoardRow) : Int × BoardRow :=
  let r1 := { r with rowStrength := 0 }
  let r2 := r1.cards.foldl (fun (s : BoardRow) c => { s with rowStrength := s.rowStrength + c.getStrength }) r1
  (r2.rowStrength, r2)

/-- The member function `BoardRow::reset`. -/
def reset (r : BoardRow) : BoardRow :=
  let r1 := { r with buffed := false, deBuffed := false, morale := 0 }
  let r2 := r1.clear
  { r2 with rowStrength := 0 }

end BoardRow

/-- The closed-form strength of §4.1 of the specification, written from the
specification's words (not from the code): debuffed `D`, buffed `B`, morale
count `M`, base strength `S`, penalty flag `P`. -/
def specStrength (D B : Bool) (M S : Int) (P : Bool) : Int :=
  if D then 1 + (if P then M - 1 else M)
  else if B then 2 * S + (if P then 2 * M - 2 else 2 * M)
  else S + (if P then M - 1 else M)

/-- The states obtained from a freshly constructed row by finitely many calls
of `add`, `buff`, `deBuff`, `addMorale`, `clear` and `reset`, where every card
handed to `add` has its current strength equal to its base strength. -/
inductive Reachable : BoardRow → Prop
  | fresh : Reachable BoardRow.new
  | add (r : BoardRow) (card : UnitCard) :
      Reachable r → card.currentStrength = card.strength → Reachable (r.add card)
  | buff (r : BoardRow) : Reachable r → Reachable r.buff
  | deBuff (r : BoardRow) : Reachable r → Reachable r.deBuff
  | addMorale (r : BoardRow) : Reachable r → Reachable r.addMorale
  | clear (r : BoardRow) : Reachable r → Reachable r.clear
  | reset (r : BoardRow) : Reachable r → Reachable r.reset

/-- A non-hero, non-penalised card of base strength 5 (ability code 0). -/
def plainFive : UnitCard :=
  { strength := 5, currentStrength := 5, isHero := false, ability := 0 }

/-- A non-hero card of base strength 5 carrying the self-penalty ability. -/
def moraleFive : UnitCard :=
  { strength := 5, currentStrength := 5, isHero := false, ability := 1 }

/-- A hero card of base strength 10. -/
def heroTen : UnitCard :=
  { strength := 10, currentStrength := 10, isHero := true, ability := 0 }

/-- Apply `f` to the first `n` cards of a list and keep the others: the cards
of a row after `n` rounds of a loop that rewrites the card at its index. -/
def prefixMap (f : UnitCard → UnitCard) : Nat → List UnitCard → List UnitCard
  | 0, l => l
  | _ + 1, [] => []
  | n + 1, c :: l => f c :: prefixMap f n l

/-- The sum of the strengths that `f` leaves on the first `n` cards. -/
def prefixSum (f : UnitCard → UnitCard) (n : Nat) (l : List UnitCard) : Int :=
  ((l.take n).map (fun c => (f c).getStrength)).sum

/-- A loop body that rewrites the card at index `i` by `f` and then adds the
new strength of that card to `rowStrength`. -/
def pointBody (f : UnitCard → UnitCard) (i : Nat) (r : BoardRow) : BoardRow :=
  match r.cards[i]? with
  | none => r
  | some c =>
    { r with cards := r.cards.set i (f c), rowStrength := r.rowStrength + (f c).getStrength }

/-- What one round of the loop of `BoardRow::deBuff` does to its card, for a
row whose buffed flag is `B`. -/
def deBuffCard (B : Bool) (c : UnitCard) : UnitCard :=
  if !c.isHero && !B then c.setStrength 1
  else if !c.isHero && B then c.setStrength 2
  else c

/-- What one round of the loop of `BoardRow::clear` does to its card. -/
def clearCard (c : UnitCard) : UnitCard :=
  if !c.isHero then c.setStrength c.strength else c

/-- What the loop of `BoardRow::buff` leaves on a card, for a row with flags
`B`, `D` and morale count `M` before the call. -/
def buffCard (B D : Bool) (M : Int) (c : UnitCard) : UnitCard :=
  if !c.isHero && !D then c.setStrength (c.strength * 2)
  else if !c.isHero && D then
    if M ≥ 1 then BoardRow.moraleBoostCard B D M (c.setStrength 2) else c.setStrength 2
  else c

/-- Overwrite the current strength of a card that is no hero by the value
`v` computes from the card; leave a hero as it is. -/
def recompute (v : UnitCard → Int) (c : UnitCard) : UnitCard :=
  if c.isHero then c else c.setStrength (v c)

/-- The strength that the code keeps on a card that is no hero while the
morale count is 0: 1 under a debuff, else the base strength, and twice that
value under a buff. -/
def flagStrength (D B : Bool) (S : Int) : Int :=
  if D then (if B then 2 else 1) else (if B then 2 * S else S)

/-- The sequential rule the specification gives for `add` (§4.2), written
from the specification's words: on a current strength `c`, replace it by 1 if
the row is debuffed, then add `M` if `M ≥ 1`, then double if the row is
buffed. -/
def sequentialStrength (D B : Bool) (M c : Int) : Int :=
  let c1 := if D then 1 else c
  let c2 := if M ≥ 1 then c1 + M else c1
  if B then c2 * 2 else c2

/-- The immutable part of a card: base strength, hero flag and ability. -/
def cardIdentity (c : UnitCard) : Int × Bool × Int :=
  (c.strength, c.isHero, c.ability)

/-- The reachable states in which every card handed to `add` has, besides a
current strength equal to its base strength, a base strength of at least 0. -/
inductive ReachableNonneg : BoardRow → Prop
  | fresh : ReachableNonneg BoardRow.new
  | add (r : BoardRow) (card : UnitCard) :
      ReachableNonneg r → card.currentStrength = card.strength → 0 ≤ card.strength →
        ReachableNonneg (r.add card)
  | buff (r : BoardRow) : ReachableNonneg r → ReachableNonneg r.buff
  | deBuff (r : BoardRow) : ReachableNonneg r → ReachableNonneg r.deBuff
  | addMorale (r : BoardRow) : ReachableNonneg r → ReachableNonneg r.addMorale
  | clear (r : BoardRow) : ReachableNonneg r → ReachableNonneg r.clear
  | reset (r : BoardRow) : ReachableNonneg r → ReachableNonneg r.reset

/-- The sum of the current strengths of a list of cards. -/
def strengthSum (l : List UnitCard) : Int :=
  (l.map UnitCard.getStrength).sum

/-- The row of `class BoardRow` together with the card objects that its
pointers refer to: `heap` gives the `UnitCard` object at each address and
`cards` is the `vector<UnitCard*>` as a list of addresses, so the same object
may stand on the row more than once. -/
structure HeapRow where
  heap : Nat → UnitCard
  cards : List Nat
  rowPosition : Option Int
  buffed : Bool
  deBuffed : Bool
  morale : Int
  rowStrength : Int

namespace HeapRow

/-- The constructor `BoardRow::BoardRow()`, in a memory `heap` of card
objects that it does not touch. -/
def new (heap : Nat → UnitCard) : HeapRow :=
  { heap := heap, cards := [], rowPosition := none, buffed := false, deBuffed := false,
    morale := 0, rowStrength := 0 }

/-- The member function `BoardRow::setRow`. -/
def setRow (s : HeapRow) (pos : Int) : HeapRow :=
  { s with rowPosition := some pos }

/-- The call `p->setStrength(v)` on the object at address `p`. -/
def setStrengthOf (s : HeapRow) (p : Nat) (v : Int) : HeapRow :=
  { s with heap := fun a => if a = p then (s.heap p).setStrength v else s.heap a }

/-- The statement `rowStrength += p->getStrength()`. -/
def accumulateOf (s : HeapRow) (p : Nat) : HeapRow :=
  { s with rowStrength := s.rowStrength + (s.heap p).getStrength }

/-- The member function `BoardRow::add` on a pointer `card`: the three `if`
statements write through the pointer, then the pointer is pushed. -/
def add (s : HeapRow) (card : Nat) : HeapRow :=
  let s4 :=
    if !(s.heap card).isHero then
      let s1 := if s.deBuffed then s.setStrengthOf card 1 else s
      let s2 :=
        if s1.morale ≥ 1 then s1.setStrengthOf card ((s1.heap card).getStrength + s1.morale)
        else s1
      let s3 :=
        if s2.buffed then s2.setStrengthOf card ((s2.heap card).getStrength * 2) else s2
      s3
    else s
  { s4 with cards := s4.cards ++ [card] }

/-- The member function `BoardRow::moraleBoost`: the range-for loop visits
the pointers of the row in order and rewrites the object behind each. -/
def moraleBoost (s : HeapRow) : HeapRow :=
  let boost := BoardRow.moraleBoostCard s.buffed s.deBuffed s.morale
  let visit := fun (h : Nat → UnitCard) (p : Nat) => fun a => if a = p then boost (h p) else h a
  { s with heap := s.cards.foldl visit s.heap }

/-- The loop body of `BoardRow::buff`. -/
def buffBody (i : Nat) (s : HeapRow) : HeapRow :=
  match s.cards[i]? with
  | none => s
  | some p =>
    let s1 :=
      if !(s.heap p).isHero && !s.deBuffed then s.setStrengthOf p ((s.heap p).strength * 2)
      else if !(s.heap p).isHero && s.deBuffed then
        let s2 := s.setStrengthOf p 2
        if s2.morale ≥ 1 then s2.moraleBoost else s2
      else s
    s1.accumulateOf p

/-- The member function `BoardRow::buff`. -/
def buff (s : HeapRow) : HeapRow :=
  let s1 := { s with rowStrength := 0 }
  let s2 := forLoop buffBody s1.cards.length s1
  { s2 with buffed := true }

/-- The loop body of `BoardRow::deBuff`. -/
def deBuffBody (i : Nat) (s : HeapRow) : HeapRow :=
  match s.cards[i]? with
  | none => s
  | some p =>
    let s1 :=
      if !(s.heap p).isHero && !s.buffed then s.setStrengthOf p 1
      else if !(s.heap p).isHero && s.buffed then s.setStrengthOf p 2
      else s
    s1.accumulateOf p

/-- The member function `BoardRow::deBuff`. -/
def deBuff (s : HeapRow) : HeapRow :=
  let s1 := { s with rowStrength := 0 }
  let s2 := forLoop deBuffBody s1.cards.length s1
  let s3 := { s2 with deBuffed := true }
  if s3.morale ≥ 1 then s3.moraleBoost else s3

/-- The loop body of `BoardRow::clear`. -/
def clearBody (i : Nat) (s : HeapRow) : HeapRow :=
  match s.cards[i]? with
  | none => s
  | some p =>
    let s1 := if !(s.heap p).isHero then s.setStrengthOf p (s.heap p).strength else s
    s1.accumulateOf p

/-- The member function `BoardRow::clear`. -/
def clear (s : HeapRow) : HeapRow :=
  let s1 := { s with rowStrength := 0 }
  let s2 := forLoop clearBody s1.cards.length s1
  let s3 := { s2 with deBuffed := false }
  let s4 := if s3.buffed then s3.buff else s3
  if s4.morale ≥ 1 then s4.moraleBoost else s4

/-- The member function `BoardRow::addMorale`. -/
def addMorale (s : HeapRow) : HeapRow :=
  moraleBoost { s with morale := s.morale + 1 }

/-- The member function `BoardRow::getRowStr`: the returned value and the
state after the call. -/
def getRowStr (s : HeapRow) : Int × HeapRow :=
  let s1 := { s with rowStrength := 0 }
  let s2 := s1.cards.foldl (fun (t : HeapRow) p => t.accumulateOf p) s1
  (s2.rowStrength, s2)

/-- The member function `BoardRow::reset`. -/
def reset (s : HeapRow) : HeapRow :=
  let s1 := { s with buffed := false, deBuffed := false, morale := 0 }
  let s2 := s1.clear
  { s2 with rowStrength := 0 }

/-- The row as a list of card values: the object behind each pointer. -/
def view (s : HeapRow) : BoardRow :=
  { cards := s.cards.map s.heap, rowPosition := s.rowPosition, buffed := s.buffed,
    deBuffed := s.deBuffed, morale := s.morale, rowStrength := s.rowStrength }

end HeapRow

/-- The state `t` has the member sequence of `s`, pointer by pointer, and
every card object has in `t` the base strength, hero flag and ability it has
in `s`. -/
def KeepsMembers (s t : HeapRow) : Prop :=
  t.cards = s.cards ∧ ∀ a : Nat, cardIdentity (t.heap a) = cardIdentity (s.heap a)

/-- A fresh row in a memory of plain cards of base 5, after `add` of the
card at address 0 and `buff`. -/
def buffedRowOfFive : HeapRow :=
  ((HeapRow.new (fun _ => plainFive)).add 0).buff

open BoardRow

/-! ## Loops -/

theorem prefixMap_getElem? (f : UnitCard → UnitCard) :
    ∀ (n : Nat) (l : List UnitCard), (prefixMap f n l)[n]? = l[n]? := by
  intro n
  induction n with
  | zero => intro l; rfl
  | succ n ih =>
    intro l
    cases l with
    | nil => rfl
    | cons c l => simpa [prefixMap] using ih l

theorem prefixMap_set (f : UnitCard → UnitCard) :
    ∀ (n : Nat) (l : List UnitCard) (c : UnitCard), l[n]? = some c →
      (prefixMap f n l).set n (f c) = prefixMap f (n + 1) l := by
  intro n
  induction n with
  | zero =>
    intro l c h
    cases l with
    | nil => simp at h
    | cons d l =>
      simp at h
      subst h
      simp [prefixMap]
  | succ n ih =>
    intro l c h
    cases l with
    | nil => simp at h
    | cons d l =>
      simp at h
      simp [prefixMap, ih l c h]

theorem prefixMap_length (f : UnitCard → UnitCard) :
    ∀ (l : List UnitCard), prefixMap f l.length l = l.map f := by
  intro l
  induction l with
  | nil => rfl
  | cons c l ih => simp [prefixMap, ih]

theorem prefixSum_succ (f : UnitCard → UnitCard) (n : Nat) (l : List UnitCard) (c : UnitCard)
    (h : l[n]? = some c) : prefixSum f (n + 1) l = prefixSum f n l + (f c).getStrength := by
  simp [prefixSum, List.take_succ, h]

theorem prefixSum_length (f : UnitCard → UnitCard) (l : List UnitCard) :
    prefixSum f l.length l = strengthSum (l.map f) := by
  simp [prefixSum, strengthSum, Function.comp_def]

theorem forLoop_pointBody (f : UnitCard → UnitCard) (r : BoardRow) :
    ∀ n : Nat, n ≤ r.cards.length →
      forLoop (pointBody f) n r =
        { r with cards := prefixMap f n r.cards,
                 rowStrength := r.rowStrength + prefixSum f n r.cards } := by
  intro n
  induction n with
  | zero => intro _; simp [forLoop, prefixMap, prefixSum]
  | succ n ih =>
    intro hn
    have hlt : n < r.cards.length := hn
    have hget : r.cards[n]? = some r.cards[n] := List.getElem?_eq_getElem hlt
    rw [forLoop, ih (Nat.le_of_lt hlt)]
    simp only [pointBody, prefixMap_getElem?, hget]
    rw [prefixMap_set f n r.cards _ hget, prefixSum_succ f n r.cards _ hget, add_assoc]

theorem pointBody_all (f : UnitCard → UnitCard) (r : BoardRow) :
    forLoop (pointBody f) r.cards.length r =
      { r with cards := r.cards.map f,
               rowStrength := r.rowStrength + strengthSum (r.cards.map f) } := by
  rw [forLoop_pointBody f r _ (Nat.le_refl _), prefixMap_length, prefixSum_length]


theorem forLoop_congr {σ : Type} (P : σ → Prop) (b b' : Nat → σ → σ)
    (h : ∀ i s, P s → b i s = b' i s) (hP : ∀ i s, P s → P (b' i s)) :
    ∀ (n : Nat) (s : σ), P s → forLoop b n s = forLoop b' n s ∧ P (forLoop b' n s) := by
  intro n
  induction n with
  | zero => intro s hs; exact ⟨rfl, hs⟩
  | succ n ih =>
    intro s hs
    obtain ⟨h1, h2⟩ := ih s hs
    refine ⟨?_, ?_⟩
    · simp only [forLoop]
      rw [h1, h n _ h2]
    · simp only [forLoop]
      exact hP n _ h2

theorem set_of_getElem? {α : Type} (l : List α) (n : Nat) (a : α) (h : l[n]? = some a) :
    l.set n a = l := by
  apply List.ext_getElem?
  intro j
  rw [List.getElem?_set]
  by_cases hj : n = j
  · subst hj
    obtain ⟨hlt, _⟩ := List.getElem?_eq_some.mp h
    simp [hlt, h]
  · simp [hj]

/-! ## The morale pass -/

theorem moraleBoostCard_eq (B D : Bool) (M : Int) (c : UnitCard) :
    moraleBoostCard B D M c =
      if c.isHero then c
      else c.setStrength (specStrength D B M c.strength (c.ability == 1)) := by
  unfold moraleBoostCard specStrength
  cases hh : c.isHero <;> cases B <;> cases D <;> by_cases ha : c.ability = 1 <;>
    simp [ha, mul_comm]

theorem moraleBoostCard_hero (B D : Bool) (M : Int) (c : UnitCard) (h : c.isHero = true) :
    moraleBoostCard B D M c = c := by
  simp [moraleBoostCard_eq, h]

theorem moraleBoostCard_isHero (B D : Bool) (M : Int) (c : UnitCard) :
    (moraleBoostCard B D M c).isHero = c.isHero := by
  rw [moraleBoostCard_eq]
  split <;> simp [UnitCard.setStrength]

theorem moraleBoostCard_setStrength (B D : Bool) (M v : Int) (c : UnitCard)
    (h : c.isHero = false) :
    moraleBoostCard B D M (c.setStrength v) = moraleBoostCard B D M c := by
  simp [moraleBoostCard_eq, h, UnitCard.setStrength]

theorem moraleBoostCard_idem (B D : Bool) (M : Int) (c : UnitCard) :
    moraleBoostCard B D M (moraleBoostCard B D M c) = moraleBoostCard B D M c := by
  cases h : c.isHero
  · simp [moraleBoostCard_eq, h, UnitCard.setStrength]
  · simp [moraleBoostCard_hero, h]

/-! ## The loops of `deBuff` and `clear` -/

theorem deBuffBody_eq (i : Nat) (r : BoardRow) :
    deBuffBody i r = pointBody (deBuffCard r.buffed) i r := by
  unfold deBuffBody pointBody
  cases hc : r.cards[i]? with
  | none => rfl
  | some c =>
    obtain ⟨hlt, _⟩ := List.getElem?_eq_some.mp hc
    cases hh : c.isHero <;> cases hb : r.buffed <;>
      simp [deBuffCard, setStrengthAt, accumulateAt, hc, hh, hb, hlt, set_of_getElem?]

theorem clearBody_eq (i : Nat) (r : BoardRow) :
    clearBody i r = pointBody clearCard i r := by
  unfold clearBody pointBody
  cases hc : r.cards[i]? with
  | none => rfl
  | some c =>
    obtain ⟨hlt, _⟩ := List.getElem?_eq_some.mp hc
    cases hh : c.isHero <;>
      simp [clearCard, setStrengthAt, accumulateAt, hc, hh, hlt, set_of_getElem?]

theorem pointBody_buffed (f : UnitCard → UnitCard) (i : Nat) (r : BoardRow) :
    (pointBody f i r).buffed = r.buffed ∧ (pointBody f i r).deBuffed = r.deBuffed ∧
      (pointBody f i r).morale = r.morale := by
  unfold pointBody
  cases r.cards[i]? <;> simp

theorem deBuff_loop (r : BoardRow) :
    forLoop deBuffBody r.cards.length r =
      { r with cards := r.cards.map (deBuffCard r.buffed),
               rowStrength := r.rowStrength + strengthSum (r.cards.map (deBuffCard r.buffed)) } := by
  have h := forLoop_congr (fun s : BoardRow => s.buffed = r.buffed) deBuffBody
    (pointBody (deBuffCard r.buffed))
    (fun i s hs => by rw [deBuffBody_eq, hs])
    (fun i s hs => by show (pointBody _ i s).buffed = _; rw [(pointBody_buffed _ i s).1]; exact hs)
    r.cards.length r rfl
  rw [h.1, pointBody_all]

theorem clear_loop (r : BoardRow) :
    forLoop clearBody r.cards.length r =
      { r with cards := r.cards.map clearCard,
               rowStrength := r.rowStrength + strengthSum (r.cards.map clearCard) } := by
  have h : clearBody = pointBody clearCard := by
    funext i s
    exact clearBody_eq i s
  rw [h, pointBody_all]

/-! ## The loop of `buff` -/

theorem buffCard_hero (B D : Bool) (M : Int) (c : UnitCard) (h : c.isHero = true) :
    buffCard B D M c = c := by
  simp [buffCard, h]

theorem buffCard_boost (B : Bool) (M : Int) (hM : M ≥ 1) (c : UnitCard) :
    buffCard B true M c = moraleBoostCard B true M c := by
  cases h : c.isHero
  · simp [buffCard, h, hM, moraleBoostCard_setStrength]
  · simp [buffCard, h, moraleBoostCard_hero]

theorem buffBody_eq (i : Nat) (r : BoardRow) (h : r.deBuffed = false ∨ ¬ r.morale ≥ 1) :
    buffBody i r = pointBody (buffCard r.buffed r.deBuffed r.morale) i r := by
  unfold buffBody pointBody
  cases hc : r.cards[i]? with
  | none => rfl
  | some c =>
    obtain ⟨hlt, _⟩ := List.getElem?_eq_some.mp hc
    rcases h with h | h
    · cases hh : c.isHero <;>
        simp [buffCard, setStrengthAt, accumulateAt, hc, hh, h, hlt, set_of_getElem?]
    · cases hh : c.isHero <;> cases hd : r.deBuffed <;>
        simp [buffCard, setStrengthAt, accumulateAt, hc, hh, hd, h, hlt, set_of_getElem?]

theorem buff_loop_point (r : BoardRow) (h : r.deBuffed = false ∨ ¬ r.morale ≥ 1) :
    forLoop buffBody r.cards.length r =
      { r with cards := r.cards.map (buffCard r.buffed r.deBuffed r.morale),
               rowStrength := r.rowStrength +
                 strengthSum (r.cards.map (buffCard r.buffed r.deBuffed r.morale)) } := by
  have hc := forLoop_congr
    (fun s : BoardRow => s.buffed = r.buffed ∧ s.deBuffed = r.deBuffed ∧ s.morale = r.morale)
    buffBody (pointBody (buffCard r.buffed r.deBuffed r.morale))
    (fun i s hs => by
      obtain ⟨h1, h2, h3⟩ := hs
      rw [buffBody_eq i s (by rw [h2, h3]; exact h), h1, h2, h3])
    (fun i s hs => by
      obtain ⟨h1, h2, h3⟩ := hs
      obtain ⟨g1, g2, g3⟩ := pointBody_buffed (buffCard r.buffed r.deBuffed r.morale) i s
      exact ⟨g1.trans h1, g2.trans h2, g3.trans h3⟩)
    r.cards.length r ⟨rfl, rfl, rfl⟩
  rw [hc.1, pointBody_all]

theorem map_moraleBoostCard_idem (B D : Bool) (M : Int) (l : List UnitCard) :
    (l.map (moraleBoostCard B D M)).map (moraleBoostCard B D M) = l.map (moraleBoostCard B D M) := by
  rw [List.map_map]
  apply List.map_congr_left
  intro c _
  exact moraleBoostCard_idem B D M c

theorem moraleBoostCard_comp (B D : Bool) (M : Int) :
    moraleBoostCard B D M ∘ moraleBoostCard B D M = moraleBoostCard B D M := by
  funext c
  exact moraleBoostCard_idem B D M c

theorem buff_loop_boost (r : BoardRow) (hD : r.deBuffed = true) (hM : r.morale ≥ 1) :
    ∀ n : Nat, n ≤ r.cards.length →
      forLoop buffBody n r =
        { r with
          cards := if (r.cards.take n).all (fun c => c.isHero) then r.cards
                   else r.cards.map (moraleBoostCard r.buffed true r.morale),
          rowStrength := r.rowStrength +
            prefixSum (moraleBoostCard r.buffed true r.morale) n r.cards } := by
  intro n
  induction n with
  | zero => intro _; simp [forLoop, prefixSum]
  | succ n ih =>
    intro hn
    have hlt : n < r.cards.length := hn
    have hget : r.cards[n]? = some r.cards[n] := List.getElem?_eq_getElem hlt
    rw [forLoop, ih (Nat.le_of_lt hlt), prefixSum_succ _ n r.cards _ hget, ← add_assoc]
    have htake : (r.cards.take (n + 1)).all (fun c => c.isHero) =
        ((r.cards.take n).all (fun c => c.isHero) && r.cards[n].isHero) := by
      rw [List.take_succ, List.all_append, hget]
      simp
    rw [htake]
    have hmapget : (r.cards.map (moraleBoostCard r.buffed true r.morale))[n]? =
        some (moraleBoostCard r.buffed true r.morale r.cards[n]) := by
      rw [List.getElem?_map, hget]; rfl
    cases hall : (r.cards.take n).all (fun c => c.isHero) <;> cases hh : r.cards[n].isHero
    · -- some earlier card is no hero, this card is no hero
      have hlt2 : n < (r.cards.map (moraleBoostCard r.buffed true r.morale)).length := by
        simpa using hlt
      simp [buffBody, hmapget, moraleBoostCard_isHero, hh, hD, hM, setStrengthAt, moraleBoost,
        accumulateAt, hlt, moraleBoostCard_setStrength, moraleBoostCard_idem,
        moraleBoostCard_comp, set_of_getElem? _ n _ hmapget]
    · -- some earlier card is no hero, this card is a hero
      simp [buffBody, hmapget, moraleBoostCard_isHero, hh, hD, accumulateAt]
    · -- all earlier cards are heroes, this card is the first that is none
      have hset : (r.cards.map (moraleBoostCard r.buffed true r.morale)).set n
          (moraleBoostCard r.buffed true r.morale r.cards[n]) =
          r.cards.map (moraleBoostCard r.buffed true r.morale) :=
        set_of_getElem? _ n _ hmapget
      simp [buffBody, hget, hh, hD, hM, setStrengthAt, moraleBoost,
        accumulateAt, hlt, moraleBoostCard_setStrength, hset]
    · -- all cards up to this one are heroes
      simp [buffBody, hget, hh, hD, accumulateAt, moraleBoostCard_hero]

/-! ## The mutators in closed form -/

theorem buff_eq (r : BoardRow) :
    r.buff =
      { r with cards := r.cards.map (buffCard r.buffed r.deBuffed r.morale),
               rowStrength := strengthSum (r.cards.map (buffCard r.buffed r.deBuffed r.morale)),
               buffed := true } := by
  by_cases h : r.deBuffed = false ∨ ¬ r.morale ≥ 1
  · have hl := buff_loop_point { r with rowStrength := 0 } h
    simp only [buff]
    rw [hl]
    simp
  · have hD : r.deBuffed = true := by
      cases hd : r.deBuffed
      · exact absurd (Or.inl hd) h
      · rfl
    have hM : r.morale ≥ 1 := by
      by_contra hm
      exact h (Or.inr hm)
    have hl := buff_loop_boost { r with rowStrength := 0 } hD hM r.cards.length (Nat.le_refl _)
    have hmap : (if (r.cards.take r.cards.length).all (fun c => c.isHero) then r.cards
        else r.cards.map (moraleBoostCard r.buffed true r.morale)) =
        r.cards.map (moraleBoostCard r.buffed true r.morale) := by
      split
      · rename_i hall
        rw [List.take_length, List.all_eq_true] at hall
        conv_lhs => rw [← List.map_id r.cards]
        apply List.map_congr_left
        intro c hc
        rw [moraleBoostCard_hero _ _ _ c (hall c hc)]
        rfl
      · rfl
    have hbc : buffCard r.buffed r.deBuffed r.morale = moraleBoostCard r.buffed true r.morale := by
      funext c
      rw [hD]
      exact buffCard_boost r.buffed r.morale hM c
    simp only [buff]
    rw [hl]
    simp only [hmap, prefixSum_length, hbc]
    simp

theorem deBuff_eq (r : BoardRow) :
    r.deBuff =
      if r.morale ≥ 1 then
        moraleBoost
          { r with cards := r.cards.map (deBuffCard r.buffed),
                   rowStrength := strengthSum (r.cards.map (deBuffCard r.buffed)),
                   deBuffed := true }
      else
        { r with cards := r.cards.map (deBuffCard r.buffed),
                 rowStrength := strengthSum (r.cards.map (deBuffCard r.buffed)),
                 deBuffed := true } := by
  have hl := deBuff_loop { r with rowStrength := 0 }
  simp only [deBuff]
  rw [hl]
  simp

theorem clear_eq (r : BoardRow) :
    r.clear =
      (fun r4 : BoardRow => if r4.morale ≥ 1 then r4.moraleBoost else r4)
        ((fun r3 : BoardRow => if r3.buffed then r3.buff else r3)
          { r with cards := r.cards.map clearCard,
                   rowStrength := strengthSum (r.cards.map clearCard),
                   deBuffed := false }) := by
  have hl := clear_loop { r with rowStrength := 0 }
  simp only [clear]
  rw [hl]
  simp

theorem moraleBoostCard_recompute (B D : Bool) (M : Int) :
    moraleBoostCard B D M =
      recompute (fun c => specStrength D B M c.strength (c.ability == 1)) := by
  funext c
  rw [moraleBoostCard_eq]
  rfl

@[simp]
theorem setStrength_strength (c : UnitCard) (x : Int) :
    (c.setStrength x).strength = c.strength := rfl

@[simp]
theorem setStrength_isHero (c : UnitCard) (x : Int) :
    (c.setStrength x).isHero = c.isHero := rfl

@[simp]
theorem setStrength_ability (c : UnitCard) (x : Int) :
    (c.setStrength x).ability = c.ability := rfl

@[simp]
theorem setStrength_currentStrength (c : UnitCard) (x : Int) :
    (c.setStrength x).currentStrength = x := rfl

@[simp]
theorem setStrength_setStrength (c : UnitCard) (x y : Int) :
    (c.setStrength x).setStrength y = c.setStrength y := rfl

theorem recompute_recompute (v w : UnitCard → Int)
    (hw : ∀ (c : UnitCard) (x : Int), w (c.setStrength x) = w c) (c : UnitCard) :
    recompute w (recompute v c) = recompute w c := by
  cases h : c.isHero
  · simp [recompute, h, hw]
  · simp [recompute, h]

theorem map_recompute_recompute (v w : UnitCard → Int)
    (hw : ∀ (c : UnitCard) (x : Int), w (c.setStrength x) = w c) (l : List UnitCard) :
    (l.map (recompute v)).map (recompute w) = l.map (recompute w) := by
  rw [List.map_map]
  apply List.map_congr_left
  intro c _
  exact recompute_recompute v w hw c

theorem deBuffCard_recompute (B : Bool) :
    deBuffCard B = recompute (fun _ => if B then 2 else 1) := by
  funext c
  cases h : c.isHero <;> cases B <;> simp [deBuffCard, recompute, h]

theorem clearCard_recompute : clearCard = recompute (fun c => c.strength) := by
  funext c
  cases h : c.isHero <;> simp [clearCard, recompute, h]

theorem buffCard_recompute (B D : Bool) (M : Int) :
    buffCard B D M =
      recompute (fun c =>
        if D then (if 1 ≤ M then specStrength true B M c.strength (c.ability == 1) else 2)
        else 2 * c.strength) := by
  funext c
  cases h : c.isHero <;> cases D <;> by_cases hM : 1 ≤ M <;>
    simp [buffCard, recompute, h, hM, moraleBoostCard_eq, UnitCard.setStrength, mul_comm]

theorem addMorale_eq (r : BoardRow) :
    r.addMorale =
      { r with morale := r.morale + 1,
               cards := r.cards.map (recompute (fun c =>
                 specStrength r.deBuffed r.buffed (r.morale + 1) c.strength (c.ability == 1))) } := by
  simp [addMorale, moraleBoost, moraleBoostCard_recompute]

theorem buff_cards (r : BoardRow) :
    r.buff.cards = r.cards.map (recompute (fun c =>
      if r.deBuffed then
        (if 1 ≤ r.morale then specStrength true r.buffed r.morale c.strength (c.ability == 1) else 2)
      else 2 * c.strength)) := by
  rw [buff_eq, buffCard_recompute]

theorem buff_flags (r : BoardRow) :
    r.buff.buffed = true ∧ r.buff.deBuffed = r.deBuffed ∧ r.buff.morale = r.morale := by
  rw [buff_eq]
  exact ⟨rfl, rfl, rfl⟩

theorem deBuff_cards (r : BoardRow) :
    r.deBuff.cards = r.cards.map (recompute (fun c =>
      if 1 ≤ r.morale then specStrength true r.buffed r.morale c.strength (c.ability == 1)
      else if r.buffed then 2 else 1)) := by
  rw [deBuff_eq]
  by_cases hM : 1 ≤ r.morale
  · simp only [ge_iff_le, hM, if_true, moraleBoost, moraleBoostCard_recompute,
      deBuffCard_recompute]
    rw [map_recompute_recompute _ _ (fun c x => by simp)]
  · simp only [ge_iff_le, hM, if_false, deBuffCard_recompute]

theorem deBuff_flags (r : BoardRow) :
    r.deBuff.buffed = r.buffed ∧ r.deBuff.deBuffed = true ∧ r.deBuff.morale = r.morale := by
  rw [deBuff_eq]
  split <;> exact ⟨rfl, rfl, rfl⟩

theorem clear_cards (r : BoardRow) :
    r.clear.cards = r.cards.map (recompute (fun c =>
      if 1 ≤ r.morale then specStrength false r.buffed r.morale c.strength (c.ability == 1)
      else if r.buffed then 2 * c.strength else c.strength)) := by
  rw [clear_eq]
  cases hB : r.buffed <;> by_cases hM : 1 ≤ r.morale <;>
    simp only [hB, hM, buff_eq, moraleBoost, moraleBoostCard_recompute, buffCard_recompute,
      clearCard_recompute, ge_iff_le, if_true, if_false, Bool.false_eq_true] <;>
    repeat rw [map_recompute_recompute _ _ (fun c x => by simp)]

theorem clear_flags (r : BoardRow) :
    r.clear.buffed = r.buffed ∧ r.clear.deBuffed = false ∧ r.clear.morale = r.morale := by
  rw [clear_eq]
  cases hB : r.buffed <;> by_cases hM : 1 ≤ r.morale <;>
    simp [hB, hM, buff_eq, moraleBoost]

theorem reset_cards (r : BoardRow) :
    r.reset.cards = r.cards.map (recompute (fun c => c.strength)) := by
  simp [reset, clear_cards]

theorem reset_flags (r : BoardRow) :
    r.reset.buffed = false ∧ r.reset.deBuffed = false ∧ r.reset.morale = 0 := by
  have h := clear_flags { r with buffed := false, deBuffed := false, morale := 0 }
  simp only [reset]
  exact ⟨h.1, h.2.1, h.2.2⟩

/-! ## Members of a recomputed row -/

theorem recompute_hero (v : UnitCard → Int) (c : UnitCard) (h : c.isHero = true) :
    recompute v c = c := by
  simp [recompute, h]

theorem recompute_isHero (v : UnitCard → Int) (c : UnitCard) :
    (recompute v c).isHero = c.isHero := by
  cases h : c.isHero <;> simp [recompute, h]

theorem mem_recompute_strength (v : UnitCard → Int)
    (hv : ∀ (c : UnitCard) (x : Int), v (c.setStrength x) = v c)
    (l : List UnitCard) (c : UnitCard) (hc : c ∈ l.map (recompute v)) (hh : c.isHero = false) :
    c.currentStrength = v c := by
  obtain ⟨d, _, rfl⟩ := List.mem_map.mp hc
  rw [recompute_isHero] at hh
  simp [recompute, hh, hv]

theorem mem_recompute_hero (v : UnitCard → Int) (l : List UnitCard) (c : UnitCard)
    (hc : c ∈ l.map (recompute v)) (hh : c.isHero = true) : c ∈ l := by
  obtain ⟨d, hd, rfl⟩ := List.mem_map.mp hc
  rw [recompute_isHero] at hh
  rw [recompute_hero v d hh]
  exact hd

theorem getElem?_recompute_hero (v : UnitCard → Int) (l : List UnitCard) (i : Nat) (c : UnitCard)
    (hc : l[i]? = some c) (hh : c.isHero = true) : (l.map (recompute v))[i]? = some c := by
  rw [List.getElem?_map, hc, Option.map_some', recompute_hero v c hh]

theorem moraleBoost_cards (r : BoardRow) :
    r.moraleBoost.cards = r.cards.map (recompute (fun c =>
      specStrength r.deBuffed r.buffed r.morale c.strength (c.ability == 1))) := by
  simp [moraleBoost, moraleBoostCard_recompute]

theorem addMorale_cards (r : BoardRow) :
    r.addMorale.cards = r.cards.map (recompute (fun c =>
      specStrength r.deBuffed r.buffed (r.morale + 1) c.strength (c.ability == 1))) := by
  rw [addMorale_eq]

theorem addMorale_flags (r : BoardRow) :
    r.addMorale.buffed = r.buffed ∧ r.addMorale.deBuffed = r.deBuffed ∧
      r.addMorale.morale = r.morale + 1 := by
  rw [addMorale_eq]
  exact ⟨rfl, rfl, rfl⟩

theorem addEffects_hero (r : BoardRow) (card : UnitCard) (h : card.isHero = true) :
    r.addEffects card = card := by
  simp [addEffects, h]

theorem addEffects_eq (r : BoardRow) (card : UnitCard) (h : card.isHero = false) :
    r.addEffects card =
      card.setStrength
        (((if r.deBuffed then 1 else card.currentStrength) + (if 1 ≤ r.morale then r.morale else 0)) *
          (if r.buffed then 2 else 1)) := by
  obtain ⟨S, x, hero, ab⟩ := card
  simp only at h
  subst h
  cases hD : r.deBuffed <;> cases hB : r.buffed <;> by_cases hM : 1 ≤ r.morale <;>
    simp [addEffects, hD, hB, hM, UnitCard.getStrength, UnitCard.setStrength]

theorem addEffects_isHero (r : BoardRow) (card : UnitCard) :
    (r.addEffects card).isHero = card.isHero := by
  cases h : card.isHero
  · rw [addEffects_eq r card h]; exact h
  · rw [addEffects_hero r card h]; exact h

/-! ## Invariants of the reachable states -/

theorem add_cards (r : BoardRow) (card : UnitCard) :
    (r.add card).cards = r.cards ++ [r.addEffects card] := rfl

theorem add_flags (r : BoardRow) (card : UnitCard) :
    (r.add card).buffed = r.buffed ∧ (r.add card).deBuffed = r.deBuffed ∧
      (r.add card).morale = r.morale := ⟨rfl, rfl, rfl⟩

theorem reachable_morale_nonneg (r : BoardRow) (h : Reachable r) : 0 ≤ r.morale := by
  induction h with
  | fresh => simp [BoardRow.new]
  | add r card _ _ ih => exact ih
  | buff r _ ih => rw [(buff_flags r).2.2]; exact ih
  | deBuff r _ ih => rw [(deBuff_flags r).2.2]; exact ih
  | addMorale r _ ih => rw [(addMorale_flags r).2.2]; omega
  | clear r _ ih => rw [(clear_flags r).2.2]; exact ih
  | reset r _ _ => rw [(reset_flags r).2.2]

theorem reachable_hero (r : BoardRow) (h : Reachable r) :
    ∀ c ∈ r.cards, c.isHero = true → c.currentStrength = c.strength := by
  induction h with
  | fresh => intro c hc; simp [BoardRow.new] at hc
  | add r card _ hcard ih =>
    intro c hc hh
    rw [add_cards, List.mem_append, List.mem_singleton] at hc
    rcases hc with hc | hc
    · exact ih c hc hh
    · subst hc
      rw [addEffects_isHero] at hh
      rw [addEffects_hero r card hh]
      exact hcard
  | buff r _ ih =>
    intro c hc hh
    rw [buff_cards] at hc
    exact ih c (mem_recompute_hero _ _ c hc hh) hh
  | deBuff r _ ih =>
    intro c hc hh
    rw [deBuff_cards] at hc
    exact ih c (mem_recompute_hero _ _ c hc hh) hh
  | addMorale r _ ih =>
    intro c hc hh
    rw [addMorale_cards] at hc
    exact ih c (mem_recompute_hero _ _ c hc hh) hh
  | clear r _ ih =>
    intro c hc hh
    rw [clear_cards] at hc
    exact ih c (mem_recompute_hero _ _ c hc hh) hh
  | reset r _ ih =>
    intro c hc hh
    rw [reset_cards] at hc
    exact ih c (mem_recompute_hero _ _ c hc hh) hh

theorem reachable_flagStrength (r : BoardRow) (h : Reachable r) :
    r.morale = 0 → ∀ c ∈ r.cards, c.isHero = false →
      c.currentStrength = flagStrength r.deBuffed r.buffed c.strength := by
  induction h with
  | fresh => intro _ c hc; simp [BoardRow.new] at hc
  | add r card _ hcard ih =>
    intro hM c hc hh
    rw [add_cards, List.mem_append, List.mem_singleton] at hc
    have hM0 : r.morale = 0 := hM
    rcases hc with hc | hc
    · exact ih hM0 c hc hh
    · subst hc
      rw [addEffects_isHero] at hh
      rw [addEffects_eq r card hh, (add_flags r card).1, (add_flags r card).2.1]
      cases r.deBuffed <;> cases r.buffed <;>
        simp [flagStrength, hM0, hcard, mul_comm]
  | buff r _ _ =>
    intro hM c hc hh
    rw [(buff_flags r).2.2] at hM
    rw [buff_cards] at hc
    rw [mem_recompute_strength _ (fun c x => by simp) _ c hc hh, (buff_flags r).1,
      (buff_flags r).2.1]
    cases r.deBuffed <;> simp [flagStrength, hM]
  | deBuff r _ _ =>
    intro hM c hc hh
    rw [(deBuff_flags r).2.2] at hM
    rw [deBuff_cards] at hc
    rw [mem_recompute_strength _ (fun c x => by simp) _ c hc hh, (deBuff_flags r).1,
      (deBuff_flags r).2.1]
    cases r.buffed <;> simp [flagStrength, hM]
  | addMorale r hr _ =>
    intro hM
    rw [(addMorale_flags r).2.2] at hM
    have := reachable_morale_nonneg r hr
    omega
  | clear r _ _ =>
    intro hM c hc hh
    rw [(clear_flags r).2.2] at hM
    rw [clear_cards] at hc
    rw [mem_recompute_strength _ (fun c x => by simp) _ c hc hh, (clear_flags r).1,
      (clear_flags r).2.1]
    cases r.buffed <;> simp [flagStrength, hM]
  | reset r _ _ =>
    intro _ c hc hh
    rw [reset_cards] at hc
    rw [mem_recompute_strength _ (fun c x => by simp) _ c hc hh, (reset_flags r).1,
      (reset_flags r).2.1]
    simp [flagStrength]

theorem reachable_debuffed_buffed (r : BoardRow) (h : Reachable r) :
    r.buffed = true → r.deBuffed = true → 1 ≤ r.morale →
      ∀ c ∈ r.cards, c.isHero = false →
        c.currentStrength = specStrength true true r.morale c.strength (c.ability == 1) ∨
          c.currentStrength = 2 * (1 + r.morale) := by
  induction h with
  | fresh => intro _ _ _ c hc; simp [BoardRow.new] at hc
  | add r card _ _ ih =>
    intro hB hD hM c hc hh
    rw [add_cards, List.mem_append, List.mem_singleton] at hc
    have hB0 : r.buffed = true := hB
    have hD0 : r.deBuffed = true := hD
    have hM0 : 1 ≤ r.morale := hM
    rcases hc with hc | hc
    · exact ih hB0 hD0 hM0 c hc hh
    · subst hc
      rw [addEffects_isHero] at hh
      right
      rw [addEffects_eq r card hh, (add_flags r card).2.2]
      simp [hB0, hD0, hM0, mul_comm]
  | buff r _ _ =>
    intro _ hD hM c hc hh
    rw [(buff_flags r).2.1] at hD
    rw [(buff_flags r).2.2] at hM ⊢
    rw [buff_cards] at hc
    left
    rw [mem_recompute_strength _ (fun c x => by simp) _ c hc hh]
    simp [hD, hM, specStrength]
  | deBuff r _ _ =>
    intro hB _ hM c hc hh
    rw [(deBuff_flags r).1] at hB
    rw [(deBuff_flags r).2.2] at hM ⊢
    rw [deBuff_cards] at hc
    left
    rw [mem_recompute_strength _ (fun c x => by simp) _ c hc hh]
    simp [hB, hM]
  | addMorale r _ _ =>
    intro hB hD _ c hc hh
    rw [(addMorale_flags r).1] at hB
    rw [(addMorale_flags r).2.1] at hD
    rw [(addMorale_flags r).2.2]
    rw [addMorale_cards] at hc
    left
    rw [mem_recompute_strength _ (fun c x => by simp) _ c hc hh]
    simp [hB, hD]
  | clear r _ _ =>
    intro _ hD
    rw [(clear_flags r).2.1] at hD
    exact absurd hD (by simp)
  | reset r _ _ =>
    intro _ hD
    rw [(reset_flags r).2.1] at hD
    exact absurd hD (by simp)

theorem getRowStr_foldl (l : List UnitCard) :
    ∀ s : BoardRow,
      l.foldl (fun (s : BoardRow) c => { s with rowStrength := s.rowStrength + c.getStrength }) s =
        { s with rowStrength := s.rowStrength + strengthSum l } := by
  induction l with
  | nil => intro s; simp [strengthSum]
  | cons c l ih =>
    intro s
    rw [List.foldl_cons, ih]
    simp [strengthSum, add_assoc]

theorem getRowStr_eq (r : BoardRow) :
    r.getRowStr = (strengthSum r.cards, { r with rowStrength := strengthSum r.cards }) := by
  simp [getRowStr, getRowStr_foldl]

/-! ## The claims -/

/-- C1, refuted as stated: the row obtained by adding a plain card of base 5
to a fresh row and calling `buff` and then `deBuff` is reachable, is debuffed
with morale 0, and its member has strength 2, while the closed form gives 1. -/
theorem strength_invariant_counterexample :
    Reachable ((new.add plainFive).buff.deBuff) ∧
      ∃ c ∈ ((new.add plainFive).buff.deBuff).cards,
        c.isHero = false ∧ c.currentStrength = 2 ∧
          specStrength ((new.add plainFive).buff.deBuff).deBuffed
            ((new.add plainFive).buff.deBuff).buffed
            ((new.add plainFive).buff.deBuff).morale c.strength (c.ability == 1) = 1 :=
  ⟨Reachable.deBuff _ (Reachable.buff _ (Reachable.add _ _ Reachable.fresh rfl)), by decide⟩

/-- C1, amended: in every reachable state with morale 0 every member that is
no hero has strength 1 under a debuff, else its base strength, doubled under
a buff; this is the closed form when the member carries no penalty and the
row is not both debuffed and buffed. In a state just produced by `addMorale`,
by `deBuff` or `clear` on a row with morale at least 1, or by `buff` on a
debuffed row with morale at least 1, every member that is no hero has the
closed-form strength for the flags and morale of that state. -/
theorem strength_invariant (r : BoardRow) (h : Reachable r) :
    (r.morale = 0 → ∀ c ∈ r.cards, c.isHero = false →
      c.currentStrength = flagStrength r.deBuffed r.buffed c.strength ∧
      (c.ability ≠ 1 → ¬ (r.deBuffed = true ∧ r.buffed = true) →
        c.currentStrength =
          specStrength r.deBuffed r.buffed r.morale c.strength (c.ability == 1))) ∧
    (∀ c ∈ r.addMorale.cards, c.isHero = false →
      c.currentStrength =
        specStrength r.addMorale.deBuffed r.addMorale.buffed r.addMorale.morale
          c.strength (c.ability == 1)) ∧
    (1 ≤ r.morale → ∀ c ∈ r.deBuff.cards, c.isHero = false →
      c.currentStrength =
        specStrength r.deBuff.deBuffed r.deBuff.buffed r.deBuff.morale
          c.strength (c.ability == 1)) ∧
    (1 ≤ r.morale → ∀ c ∈ r.clear.cards, c.isHero = false →
      c.currentStrength =
        specStrength r.clear.deBuffed r.clear.buffed r.clear.morale
          c.strength (c.ability == 1)) ∧
    (1 ≤ r.morale → r.deBuffed = true → ∀ c ∈ r.buff.cards, c.isHero = false →
      c.currentStrength =
        specStrength r.buff.deBuffed r.buff.buffed r.buff.morale
          c.strength (c.ability == 1)) := by
  refine ⟨?_, ?_, ?_, ?_, ?_⟩
  · intro hM c hc hh
    have hf := reachable_flagStrength r h hM c hc hh
    refine ⟨hf, ?_⟩
    intro ha hDB
    rw [hf, hM]
    have hab : (c.ability == 1) = false := by simpa using ha
    rw [hab]
    cases hD : r.deBuffed <;> cases hB : r.buffed <;>
      simp [flagStrength, specStrength, hD, hB] at hDB ⊢
  · intro c hc hh
    rw [addMorale_cards] at hc
    rw [mem_recompute_strength _ (fun c x => by simp) _ c hc hh, (addMorale_flags r).1,
      (addMorale_flags r).2.1, (addMorale_flags r).2.2]
  · intro hM c hc hh
    rw [deBuff_cards] at hc
    rw [mem_recompute_strength _ (fun c x => by simp) _ c hc hh, (deBuff_flags r).1,
      (deBuff_flags r).2.1, (deBuff_flags r).2.2]
    simp [hM]
  · intro hM c hc hh
    rw [clear_cards] at hc
    rw [mem_recompute_strength _ (fun c x => by simp) _ c hc hh, (clear_flags r).1,
      (clear_flags r).2.1, (clear_flags r).2.2]
    simp [hM]
  · intro hM hD c hc hh
    rw [buff_cards] at hc
    rw [mem_recompute_strength _ (fun c x => by simp) _ c hc hh, (buff_flags r).1,
      (buff_flags r).2.1, (buff_flags r).2.2]
    simp [hM, hD, specStrength]

/-- The amended C1 at concrete rows: a plain card of base 5 on a buffed row
with morale 0 has strength 10, and after one `addMorale` it has 12. -/
theorem strength_invariant_witness :
    Reachable ((new.add plainFive).buff) ∧
      (plainFive.setStrength 10).currentStrength = flagStrength false true 5 ∧
      (plainFive.setStrength 12).currentStrength = specStrength false true 1 5 false :=
  ⟨Reachable.buff _ (Reachable.add _ _ Reachable.fresh rfl),
   ((strength_invariant ((new.add plainFive).buff)
      (Reachable.buff _ (Reachable.add _ _ Reachable.fresh rfl))).1 rfl
      (plainFive.setStrength 10) (by decide) rfl).1,
   (strength_invariant ((new.add plainFive).buff)
      (Reachable.buff _ (Reachable.add _ _ Reachable.fresh rfl))).2.1
      (plainFive.setStrength 12) (by decide) rfl⟩

/-- C2: a hero member is left exactly as it was (current strength included)
by `add`, `buff`, `deBuff`, `addMorale`, `moraleBoost`, `clear` and `reset`,
for every row state; a hero handed to `add` is appended untouched; hence in
every reachable state every hero member has current strength equal to its
base strength. -/
theorem hero_exempt (r : BoardRow) (card : UnitCard) :
    (∀ (i : Nat) (c : UnitCard), r.cards[i]? = some c → c.isHero = true →
      (r.add card).cards[i]? = some c ∧ r.buff.cards[i]? = some c ∧
      r.deBuff.cards[i]? = some c ∧ r.addMorale.cards[i]? = some c ∧
      r.moraleBoost.cards[i]? = some c ∧ r.clear.cards[i]? = some c ∧
      r.reset.cards[i]? = some c) ∧
    (card.isHero = true → (r.add card).cards[r.cards.length]? = some card) ∧
    (Reachable r → ∀ c ∈ r.cards, c.isHero = true → c.currentStrength = c.strength) := by
  refine ⟨?_, ?_, ?_⟩
  · intro i c hc hh
    refine ⟨?_, ?_, ?_, ?_, ?_, ?_, ?_⟩
    · obtain ⟨hlt, _⟩ := List.getElem?_eq_some.mp hc
      rw [add_cards, List.getElem?_append_left hlt, hc]
    · rw [buff_cards]; exact getElem?_recompute_hero _ _ i c hc hh
    · rw [deBuff_cards]; exact getElem?_recompute_hero _ _ i c hc hh
    · rw [addMorale_cards]; exact getElem?_recompute_hero _ _ i c hc hh
    · rw [moraleBoost_cards]; exact getElem?_recompute_hero _ _ i c hc hh
    · rw [clear_cards]; exact getElem?_recompute_hero _ _ i c hc hh
    · rw [reset_cards]; exact getElem?_recompute_hero _ _ i c hc hh
  · intro hh
    rw [add_cards, addEffects_hero r card hh, List.getElem?_concat_length]
  · intro h
    exact reachable_hero r h

/-- C2 at a concrete row: a hero of strength 10 placed first on a row that is
then joined by a plain card, boosted, buffed and debuffed is still the first
member with strength 10, also after a further `clear`. -/
theorem hero_exempt_witness :
    (((new.add heroTen).add plainFive).addMorale.buff.deBuff.clear).cards[0]? = some heroTen ∧
      heroTen.currentStrength = heroTen.strength :=
  ⟨((hero_exempt (((new.add heroTen).add plainFive).addMorale.buff.deBuff) plainFive).1
      0 heroTen (by decide) rfl).2.2.2.2.2.1,
   (hero_exempt (((new.add heroTen).add plainFive).addMorale.buff.deBuff) plainFive).2.2
      (Reachable.deBuff _ (Reachable.buff _ (Reachable.addMorale _
        (Reachable.add _ _ (Reachable.add _ _ Reachable.fresh rfl) rfl))))
      heroTen (by decide) rfl⟩

/-- C3: `getRowStr` returns the sum of the current strengths of all members,
heroes included and 0 for an empty row, whatever the cached `rowStrength` was
before the call, and it leaves the members, both flags and the morale count
as they were. -/
theorem getRowStr_sum (r : BoardRow) :
    r.getRowStr.1 = (r.cards.map (fun c => c.currentStrength)).sum ∧
    (∀ v : Int, ({ r with rowStrength := v } : BoardRow).getRowStr.1 = r.getRowStr.1) ∧
    r.getRowStr.2.cards = r.cards ∧
    r.getRowStr.2.buffed = r.buffed ∧
    r.getRowStr.2.deBuffed = r.deBuffed ∧
    r.getRowStr.2.morale = r.morale ∧
    BoardRow.new.getRowStr.1 = 0 := by
  refine ⟨?_, ?_, ?_, ?_, ?_, ?_, ?_⟩
  · rw [getRowStr_eq]; rfl
  · intro v; rw [getRowStr_eq, getRowStr_eq]
  · rw [getRowStr_eq]
  · rw [getRowStr_eq]
  · rw [getRowStr_eq]
  · rw [getRowStr_eq]
  · rfl

/-- C4, evaluated on the code: a plain card of base 5 on a fresh row has
strength 7 after two `addMorale` calls, 10 (not the stated 14) after a
following `buff`, 3 after a following `deBuff` and 14 after a following
`clear`. -/
theorem worked_scenario_buff_skips_morale :
    ((new.add plainFive).addMorale.addMorale).cards.map (fun c => c.currentStrength) = [7] ∧
    ((new.add plainFive).addMorale.addMorale.buff).cards.map (fun c => c.currentStrength) = [10] ∧
    ((new.add plainFive).addMorale.addMorale.buff.deBuff).cards.map
      (fun c => c.currentStrength) = [3] ∧
    ((new.add plainFive).addMorale.addMorale.buff.deBuff.clear).cards.map
      (fun c => c.currentStrength) = [14] := by
  decide

/-- C5: after `reset`, from any row state, both flags are false, the morale
count is 0, every hero member is as before and every member that is no hero
has its current strength equal to its base strength. -/
theorem reset_restores (r : BoardRow) :
    r.reset.buffed = false ∧ r.reset.deBuffed = false ∧ r.reset.morale = 0 ∧
    r.reset.cards =
      r.cards.map (fun c => if c.isHero then c else c.setStrength c.strength) ∧
    (∀ c ∈ r.reset.cards, c.isHero = false → c.currentStrength = c.strength) := by
  refine ⟨(reset_flags r).1, (reset_flags r).2.1, (reset_flags r).2.2, ?_, ?_⟩
  · rw [reset_cards]; rfl
  · intro c hc hh
    rw [reset_cards] at hc
    exact mem_recompute_strength _ (fun c x => by simp) _ c hc hh

/-- C5 at a concrete row: a plain card of base 5 that was boosted twice,
buffed and debuffed is back at strength 5 after `reset`. -/
theorem reset_restores_witness :
    plainFive ∈ ((new.add plainFive).addMorale.addMorale.buff.deBuff.reset).cards ∧
      plainFive.currentStrength = plainFive.strength :=
  ⟨by decide,
   (reset_restores ((new.add plainFive).addMorale.addMorale.buff.deBuff)).2.2.2.2
      plainFive (by decide) rfl⟩

/-- C6, refuted as stated: the row obtained by adding a penalised card of
base 5 to a fresh row and calling `deBuff` and then `buff` is reachable, is
both buffed and debuffed with morale 0, and its member has strength 2, while
the debuff-branch value 1 + (M - 1) is 0. -/
theorem debuff_dominates_counterexample :
    Reachable ((new.add moraleFive).deBuff.buff) ∧
      ((new.add moraleFive).deBuff.buff).buffed = true ∧
      ((new.add moraleFive).deBuff.buff).deBuffed = true ∧
      ∃ c ∈ ((new.add moraleFive).deBuff.buff).cards,
        c.isHero = false ∧ c.currentStrength = 2 ∧
          (1 + (if c.ability = 1 then ((new.add moraleFive).deBuff.buff).morale - 1
                else ((new.add moraleFive).deBuff.buff).morale) : Int) = 0 :=
  ⟨Reachable.buff _ (Reachable.deBuff _ (Reachable.add _ _ Reachable.fresh rfl)), by decide⟩

/-- C6, amended: in every reachable state that is both buffed and debuffed,
the strength of a member that is no hero does not depend on its base
strength: it is 2 when the morale count is 0, and when the morale count is at
least 1 it is the debuff-branch value 1 + (P ? M-1 : M) or, for a member put
on the row by `add` in such a state, 2 * (1 + M). Right after `deBuff` on a
buffed row, `buff` on a debuffed row (both with morale at least 1) or
`addMorale` on a buffed and debuffed row, it is the debuff-branch value for
every member that is no hero. -/
theorem debuff_dominates (r : BoardRow) (h : Reachable r) :
    (r.buffed = true → r.deBuffed = true → ∀ c ∈ r.cards, c.isHero = false →
      (r.morale = 0 → c.currentStrength = 2) ∧
      (1 ≤ r.morale →
        c.currentStrength = 1 + (if c.ability = 1 then r.morale - 1 else r.morale) ∨
        c.currentStrength = 2 * (1 + r.morale))) ∧
    (r.buffed = true → 1 ≤ r.morale → ∀ c ∈ r.deBuff.cards, c.isHero = false →
      c.currentStrength = 1 + (if c.ability = 1 then r.morale - 1 else r.morale)) ∧
    (r.deBuffed = true → 1 ≤ r.morale → ∀ c ∈ r.buff.cards, c.isHero = false →
      c.currentStrength = 1 + (if c.ability = 1 then r.morale - 1 else r.morale)) ∧
    (r.buffed = true → r.deBuffed = true → ∀ c ∈ r.addMorale.cards, c.isHero = false →
      c.currentStrength =
        1 + (if c.ability = 1 then (r.morale + 1) - 1 else r.morale + 1)) := by
  refine ⟨?_, ?_, ?_, ?_⟩
  · intro hB hD c hc hh
    refine ⟨?_, ?_⟩
    · intro hM
      rw [reachable_flagStrength r h hM c hc hh, hB, hD]
      rfl
    · intro hM
      have hd := reachable_debuffed_buffed r h hB hD hM c hc hh
      simpa [specStrength] using hd
  · intro _ hM c hc hh
    rw [deBuff_cards] at hc
    rw [mem_recompute_strength _ (fun c x => by simp) _ c hc hh]
    simp [hM, specStrength]
  · intro hD hM c hc hh
    rw [buff_cards] at hc
    rw [mem_recompute_strength _ (fun c x => by simp) _ c hc hh]
    simp [hM, hD, specStrength]
  · intro _ hD c hc hh
    rw [addMorale_cards] at hc
    rw [mem_recompute_strength _ (fun c x => by simp) _ c hc hh]
    simp [hD, specStrength]

/-- The amended C6 at concrete rows: on a buffed and debuffed row with morale
0 a plain card of base 5 has strength 2; after one `addMorale` on that row it
has strength 2 = 1 + 1. -/
theorem debuff_dominates_witness :
    Reachable ((new.add plainFive).buff.deBuff) ∧
      (plainFive.setStrength 2).currentStrength = 2 ∧
      (plainFive.setStrength 2).currentStrength = 1 + ((0 : Int) + 1) :=
  ⟨Reachable.deBuff _ (Reachable.buff _ (Reachable.add _ _ Reachable.fresh rfl)),
   ((debuff_dominates ((new.add plainFive).buff.deBuff)
      (Reachable.deBuff _ (Reachable.buff _ (Reachable.add _ _ Reachable.fresh rfl)))).1
      rfl rfl (plainFive.setStrength 2) (by decide) rfl).1 rfl,
   (debuff_dominates ((new.add plainFive).buff.deBuff)
      (Reachable.deBuff _ (Reachable.buff _ (Reachable.add _ _ Reachable.fresh rfl)))).2.2.2
      rfl rfl (plainFive.setStrength 2) (by decide) rfl⟩

/-- C7: for every row state, `addMorale` leaves both flags as they were,
raises the morale count by exactly 1, leaves every hero member as it was and
sets the current strength of every member that is no hero to the closed form
for the new count and the current flags; a penalised card of base 5 on a
fresh row has strength 7 after three `addMorale` calls. -/
theorem addMorale_recomputes (r : BoardRow) :
    r.addMorale.buffed = r.buffed ∧ r.addMorale.deBuffed = r.deBuffed ∧
    r.addMorale.morale = r.morale + 1 ∧
    r.addMorale.cards =
      r.cards.map (fun c =>
        if c.isHero then c
        else c.setStrength
          (specStrength r.deBuffed r.buffed (r.morale + 1) c.strength (c.ability == 1))) ∧
    ((new.add moraleFive).addMorale.addMorale.addMorale).cards.map
      (fun c => c.currentStrength) = [7] := by
  refine ⟨(addMorale_flags r).1, (addMorale_flags r).2.1, (addMorale_flags r).2.2, ?_, ?_⟩
  · rw [addMorale_cards]; rfl
  · decide

/-- C8, refuted as stated: on a debuffed row with morale 0 `buff` leaves a
plain card of base 5 at strength 2 where the closed form gives 1, and on a
fresh row `buff` leaves a penalised card of base 5 at strength 10 where the
closed form gives 8. -/
theorem buff_closed_form_counterexample :
    (0 ≤ ((new.add plainFive).deBuff).morale ∧
      ((new.add plainFive).deBuff).buff.cards.map (fun c => c.currentStrength) = [2] ∧
      specStrength ((new.add plainFive).deBuff).deBuffed true ((new.add plainFive).deBuff).morale
        plainFive.strength (plainFive.ability == 1) = 1) ∧
    (0 ≤ (new.add moraleFive).morale ∧
      (new.add moraleFive).buff.cards.map (fun c => c.currentStrength) = [10] ∧
      specStrength (new.add moraleFive).deBuffed true (new.add moraleFive).morale
        moraleFive.strength (moraleFive.ability == 1) = 8) := by
  decide

/-- C8, amended: for every row state, `buff` sets `buffed`, leaves `deBuffed`
and the morale count as they were, leaves every hero member as it was, and
sets the current strength of every member that is no hero to
1 + (P ? M-1 : M) on a debuffed row with morale at least 1, to 2 on a
debuffed row with morale 0, and to twice the base strength on a row that is
not debuffed and has morale 0. -/
theorem buff_recomputes (r : BoardRow) :
    r.buff.buffed = true ∧ r.buff.deBuffed = r.deBuffed ∧ r.buff.morale = r.morale ∧
    (r.deBuffed = true → 1 ≤ r.morale →
      r.buff.cards = r.cards.map (fun c =>
        if c.isHero then c
        else c.setStrength (1 + (if c.ability = 1 then r.morale - 1 else r.morale)))) ∧
    (r.deBuffed = true → r.morale = 0 →
      r.buff.cards = r.cards.map (fun c => if c.isHero then c else c.setStrength 2)) ∧
    (r.deBuffed = false → r.morale = 0 →
      r.buff.cards =
        r.cards.map (fun c => if c.isHero then c else c.setStrength (2 * c.strength))) := by
  refine ⟨(buff_flags r).1, (buff_flags r).2.1, (buff_flags r).2.2, ?_, ?_, ?_⟩
  · intro hD hM
    rw [buff_cards]
    simp [recompute, hD, hM, specStrength]
  · intro hD hM
    rw [buff_cards]
    simp [recompute, hD, hM]
  · intro hD hM
    rw [buff_cards]
    simp [recompute, hD, hM]

/-- The amended C8 at concrete rows: `buff` on a debuffed row with morale 2
holding a penalised card of base 5, on a debuffed row with morale 0 and on a
fresh row holding a plain card of base 5. -/
theorem buff_recomputes_witness :
    ((new.add moraleFive).addMorale.addMorale.deBuff).buff.cards =
        [moraleFive.setStrength 2] ∧
      ((new.add plainFive).deBuff).buff.cards = [plainFive.setStrength 2] ∧
      (new.add plainFive).buff.cards = [plainFive.setStrength 10] :=
  ⟨(buff_recomputes ((new.add moraleFive).addMorale.addMorale.deBuff)).2.2.2.1
      rfl (by decide),
   (buff_recomputes ((new.add plainFive).deBuff)).2.2.2.2.1 rfl rfl,
   (buff_recomputes (new.add plainFive)).2.2.2.2.2 rfl rfl⟩

/-- C9, refuted as stated: on a buffed row with morale 0 `deBuff` leaves a
plain card of base 5 at strength 2 where the closed form gives 1, and on a
fresh row `deBuff` leaves a penalised card of base 5 at strength 1 where the
closed form gives 0. -/
theorem deBuff_closed_form_counterexample :
    (0 ≤ ((new.add plainFive).buff).morale ∧
      ((new.add plainFive).buff).deBuff.cards.map (fun c => c.currentStrength) = [2] ∧
      specStrength true ((new.add plainFive).buff).buffed ((new.add plainFive).buff).morale
        plainFive.strength (plainFive.ability == 1) = 1) ∧
    (0 ≤ (new.add moraleFive).morale ∧
      (new.add moraleFive).deBuff.cards.map (fun c => c.currentStrength) = [1] ∧
      specStrength true (new.add moraleFive).buffed (new.add moraleFive).morale
        moraleFive.strength (moraleFive.ability == 1) = 0) := by
  decide

/-- C9, amended: for every row state, `deBuff` sets `deBuffed`, leaves
`buffed` and the morale count as they were, leaves every hero member as it
was, and sets the current strength of every member that is no hero to
1 + (P ? M-1 : M) when the morale count is at least 1, and otherwise (morale
0) to 2 on a buffed row and to 1 on a row that is not buffed. -/
theorem deBuff_recomputes (r : BoardRow) :
    r.deBuff.deBuffed = true ∧ r.deBuff.buffed = r.buffed ∧ r.deBuff.morale = r.morale ∧
    r.deBuff.cards = r.cards.map (fun c =>
      if c.isHero then c
      else c.setStrength
        (if 1 ≤ r.morale then 1 + (if c.ability = 1 then r.morale - 1 else r.morale)
         else if r.buffed then 2 else 1)) := by
  refine ⟨(deBuff_flags r).2.1, (deBuff_flags r).1, (deBuff_flags r).2.2, ?_⟩
  rw [deBuff_cards]
  simp [recompute, specStrength]

/-- C10, refuted as stated: on a row with morale 1 `add` leaves a penalised
card of base 5 at strength 6 where the closed form gives 5, and on a buffed
and debuffed row with morale 0 `add` leaves a plain card of base 5 at
strength 2 where the closed form gives 1. -/
theorem add_closed_form_counterexample :
    (0 ≤ new.addMorale.morale ∧ moraleFive.currentStrength = moraleFive.strength ∧
      (new.addMorale.add moraleFive).cards = new.addMorale.cards ++ [moraleFive.setStrength 6] ∧
      specStrength new.addMorale.deBuffed new.addMorale.buffed new.addMorale.morale
        moraleFive.strength (moraleFive.ability == 1) = 5) ∧
    (0 ≤ new.buff.deBuff.morale ∧ plainFive.currentStrength = plainFive.strength ∧
      (new.buff.deBuff.add plainFive).cards = new.buff.deBuff.cards ++ [plainFive.setStrength 2] ∧
      specStrength new.buff.deBuff.deBuffed new.buff.deBuff.buffed new.buff.deBuff.morale
        plainFive.strength (plainFive.ability == 1) = 1) := by
  decide

/-- C10, amended: for every row state with morale count at least 0 that is
not both debuffed and buffed, and every card that is no hero, carries no
penalty (ability other than 1) and has its current strength equal to its base
strength, `add` appends the card with its current strength set to the closed
form for the row's flags and morale count. -/
theorem add_agrees_with_closed_form (r : BoardRow) (card : UnitCard)
    (hh : card.isHero = false) (hc : card.currentStrength = card.strength)
    (hM : 0 ≤ r.morale) (hP : card.ability ≠ 1)
    (hDB : ¬ (r.deBuffed = true ∧ r.buffed = true)) :
    (r.add card).cards =
      r.cards ++ [card.setStrength
        (specStrength r.deBuffed r.buffed r.morale card.strength (card.ability == 1))] := by
  rw [add_cards, addEffects_eq r card hh]
  have hab : (card.ability == 1) = false := by simpa using hP
  have hval : ((if r.deBuffed then 1 else card.currentStrength) +
      (if 1 ≤ r.morale then r.morale else 0)) * (if r.buffed then 2 else 1) =
      specStrength r.deBuffed r.buffed r.morale card.strength (card.ability == 1) := by
    rw [hab, hc]
    have hm : (if 1 ≤ r.morale then r.morale else 0) = r.morale := by
      split
      · rfl
      · omega
    rw [hm]
    cases hD : r.deBuffed <;> cases hB : r.buffed <;>
      simp [specStrength, hD, hB] at hDB ⊢
    ring
  rw [hval]

/-- The amended C10 at a concrete row: a plain card of base 5 added to a
buffed row with morale 2 gets strength 14. -/
theorem add_agrees_with_closed_form_witness :
    (new.addMorale.addMorale.buff.add plainFive).cards =
      new.addMorale.addMorale.buff.cards ++ [plainFive.setStrength 14] :=
  add_agrees_with_closed_form new.addMorale.addMorale.buff plainFive rfl rfl
    (by decide) (by decide) (by decide)

/-! ## The cached aggregate -/

theorem buff_rowStrength (r : BoardRow) : r.buff.rowStrength = strengthSum r.buff.cards := by
  rw [buff_eq]

theorem deBuff_rowStrength (r : BoardRow) (hM : r.morale < 1) :
    r.deBuff.rowStrength = strengthSum r.deBuff.cards := by
  have h : ¬ r.morale ≥ 1 := by omega
  rw [deBuff_eq]
  simp only [h, if_false]

theorem clear_rowStrength (r : BoardRow) (hM : r.morale < 1) :
    r.clear.rowStrength = strengthSum r.clear.cards := by
  have h : ¬ r.morale ≥ 1 := by omega
  rw [clear_eq]
  cases hB : r.buffed
  · simp [hB, h]
  · simp only [hB, h, if_true, if_false, buff_flags]
    exact buff_rowStrength _

/-- C11: for every row state, `clear` leaves the buffed flag and the morale
count as they were before the call and leaves `deBuffed` false. -/
theorem clear_frame (r : BoardRow) :
    r.clear.buffed = r.buffed ∧ r.clear.morale = r.morale ∧ r.clear.deBuffed = false :=
  ⟨(clear_flags r).1, (clear_flags r).2.2, (clear_flags r).2.1⟩

/-- C12, refuted as stated: with morale 0, `clear` leaves a penalised card of
base 5 at strength 5 on a row that is not buffed, where the closed form gives
4, and at strength 10 on a buffed row, where the closed form gives 8. -/
theorem clear_closed_form_counterexample :
    (0 ≤ (new.add moraleFive).morale ∧
      (new.add moraleFive).clear.cards.map (fun c => c.currentStrength) = [5] ∧
      specStrength false (new.add moraleFive).buffed (new.add moraleFive).morale
        moraleFive.strength (moraleFive.ability == 1) = 4) ∧
    (0 ≤ ((new.add moraleFive).buff).morale ∧
      ((new.add moraleFive).buff).clear.cards.map (fun c => c.currentStrength) = [10] ∧
      specStrength false ((new.add moraleFive).buff).buffed ((new.add moraleFive).buff).morale
        moraleFive.strength (moraleFive.ability == 1) = 8) := by
  decide

/-- C12, amended: for every row state with buffed flag B and morale count M,
`clear` leaves every hero member as it was and sets the current strength of
every member that is no hero to the closed form with D = false and the
unchanged B and M when M is at least 1, and otherwise (morale 0) to twice the
base strength on a buffed row and to the base strength on a row that is not
buffed, penalised or not. -/
theorem clear_recomputes (r : BoardRow) :
    r.clear.cards = r.cards.map (fun c =>
      if c.isHero then c
      else c.setStrength
        (if 1 ≤ r.morale then
           (if r.buffed then
              2 * c.strength + (if c.ability = 1 then 2 * r.morale - 2 else 2 * r.morale)
            else c.strength + (if c.ability = 1 then r.morale - 1 else r.morale))
         else if r.buffed then 2 * c.strength else c.strength)) := by
  rw [clear_cards]
  simp [recompute, specStrength]

/-- C13, refuted as stated: after `add` of a plain card of base 5 to a fresh
row the cached `rowStrength` is 0 while the member strengths sum to 5, and
after a following `reset` the cache is again 0 while the sum is 5. -/
theorem rowStrength_cache_counterexample :
    (new.add plainFive).rowStrength = 0 ∧ strengthSum (new.add plainFive).cards = 5 ∧
    ((new.add plainFive).reset).rowStrength = 0 ∧
    strengthSum ((new.add plainFive).reset).cards = 5 := by
  decide

/-- C13, amended: for every row state, right after `buff` the cached
`rowStrength` is the sum of the current strengths of all members; right after
`deBuff` and `clear` it is that sum when the morale count is below 1; right
after `reset` it is 0; `add` and `addMorale` leave the cache as it was; and
`getRowStr` stores the sum in it. -/
theorem rowStrength_cache (r : BoardRow) (card : UnitCard) :
    r.buff.rowStrength = strengthSum r.buff.cards ∧
    (r.morale < 1 → r.deBuff.rowStrength = strengthSum r.deBuff.cards) ∧
    (r.morale < 1 → r.clear.rowStrength = strengthSum r.clear.cards) ∧
    r.reset.rowStrength = 0 ∧
    (r.add card).rowStrength = r.rowStrength ∧
    r.addMorale.rowStrength = r.rowStrength ∧
    r.getRowStr.2.rowStrength = strengthSum r.getRowStr.2.cards := by
  refine ⟨buff_rowStrength r, deBuff_rowStrength r, clear_rowStrength r, rfl, rfl, rfl, ?_⟩
  rw [getRowStr_eq]

/-- The amended C13 at a concrete row: on a buffed row with morale 0 holding
a plain card of base 5 and a hero of strength 10, the cache is 12 after
`deBuff` and 20 after `clear`. -/
theorem rowStrength_cache_witness :
    (((new.add plainFive).add heroTen).buff).deBuff.rowStrength = 12 ∧
      (((new.add plainFive).add heroTen).buff).clear.rowStrength = 20 :=
  ⟨(rowStrength_cache (((new.add plainFive).add heroTen).buff) plainFive).2.1 (by decide),
   (rowStrength_cache (((new.add plainFive).add heroTen).buff) plainFive).2.2.1 (by decide)⟩

/-! ## Idempotence, morale discipline and the membership frame -/

theorem map_recompute_twice (v w : UnitCard → Int)
    (hw : ∀ (c : UnitCard) (x : Int), w (c.setStrength x) = w c)
    (hvw : ∀ c : UnitCard, w c = v c) (l : List UnitCard) :
    (l.map (recompute v)).map (recompute w) = l.map (recompute v) := by
  rw [map_recompute_recompute v w hw]
  have h : w = v := funext hvw
  rw [h]

theorem buff_buff_cards (r : BoardRow) : r.buff.buff.cards = r.buff.cards := by
  rw [buff_cards r.buff, buff_cards r, (buff_flags r).1, (buff_flags r).2.1, (buff_flags r).2.2]
  exact map_recompute_twice _ _ (fun c x => by simp) (fun c => by simp [specStrength]) _

theorem deBuff_deBuff_cards (r : BoardRow) : r.deBuff.deBuff.cards = r.deBuff.cards := by
  rw [deBuff_cards r.deBuff, deBuff_cards r, (deBuff_flags r).1, (deBuff_flags r).2.2]
  exact map_recompute_twice _ _ (fun c x => by simp) (fun c => rfl) _

theorem clear_clear_cards (r : BoardRow) : r.clear.clear.cards = r.clear.cards := by
  rw [clear_cards r.clear, clear_cards r, (clear_flags r).1, (clear_flags r).2.2]
  exact map_recompute_twice _ _ (fun c x => by simp) (fun c => rfl) _

theorem reset_reset_cards (r : BoardRow) : r.reset.reset.cards = r.reset.cards := by
  rw [reset_cards r.reset, reset_cards r]
  exact map_recompute_twice _ _ (fun c x => by simp) (fun c => rfl) _

theorem cardIdentity_recompute (v : UnitCard → Int) (c : UnitCard) :
    cardIdentity (recompute v c) = cardIdentity c := by
  cases h : c.isHero <;> simp [recompute, h, cardIdentity]

theorem map_cardIdentity_recompute (v : UnitCard → Int) (l : List UnitCard) :
    (l.map (recompute v)).map cardIdentity = l.map cardIdentity := by
  rw [List.map_map]
  apply List.map_congr_left
  intro c _
  exact cardIdentity_recompute v c

theorem cardIdentity_addEffects (r : BoardRow) (card : UnitCard) :
    cardIdentity (r.addEffects card) = cardIdentity card := by
  cases h : card.isHero
  · rw [addEffects_eq r card h]; rfl
  · rw [addEffects_hero r card h]

/-- C14: for every row state and each of `buff`, `deBuff`, `clear` and
`reset`, calling it twice in a row leaves the same buffed flag, debuffed
flag, morale count and members, current strengths included, as calling it
once. -/
theorem flag_mutators_idempotent (r : BoardRow) :
    (r.buff.buff.buffed = r.buff.buffed ∧ r.buff.buff.deBuffed = r.buff.deBuffed ∧
      r.buff.buff.morale = r.buff.morale ∧ r.buff.buff.cards = r.buff.cards) ∧
    (r.deBuff.deBuff.buffed = r.deBuff.buffed ∧ r.deBuff.deBuff.deBuffed = r.deBuff.deBuffed ∧
      r.deBuff.deBuff.morale = r.deBuff.morale ∧ r.deBuff.deBuff.cards = r.deBuff.cards) ∧
    (r.clear.clear.buffed = r.clear.buffed ∧ r.clear.clear.deBuffed = r.clear.deBuffed ∧
      r.clear.clear.morale = r.clear.morale ∧ r.clear.clear.cards = r.clear.cards) ∧
    (r.reset.reset.buffed = r.reset.buffed ∧ r.reset.reset.deBuffed = r.reset.deBuffed ∧
      r.reset.reset.morale = r.reset.morale ∧ r.reset.reset.cards = r.reset.cards) := by
  refine ⟨⟨?_, ?_, ?_, buff_buff_cards r⟩, ⟨?_, ?_, ?_, deBuff_deBuff_cards r⟩,
    ⟨?_, ?_, ?_, clear_clear_cards r⟩, ⟨?_, ?_, ?_, reset_reset_cards r⟩⟩
  · rw [(buff_flags r.buff).1, (buff_flags r).1]
  · rw [(buff_flags r.buff).2.1]
  · rw [(buff_flags r.buff).2.2]
  · rw [(deBuff_flags r.deBuff).1]
  · rw [(deBuff_flags r.deBuff).2.1, (deBuff_flags r).2.1]
  · rw [(deBuff_flags r.deBuff).2.2]
  · rw [(clear_flags r.clear).1]
  · rw [(clear_flags r.clear).2.1, (clear_flags r).2.1]
  · rw [(clear_flags r.clear).2.2]
  · rw [(reset_flags r.reset).1, (reset_flags r).1]
  · rw [(reset_flags r.reset).2.1, (reset_flags r).2.1]
  · rw [(reset_flags r.reset).2.2, (reset_flags r).2.2]

/-- C15: for every row state, `add`, `buff`, `deBuff`, `clear` and
`getRowStr` leave the morale count as it was, `addMorale` raises it by exactly
1 and `reset` sets it to 0; hence in every reachable state the morale count
is at least 0, and no operation other than `reset` lowers it, while `reset`
does (from 1 to 0 after one `addMorale` on a fresh row). -/
theorem morale_discipline (r : BoardRow) (card : UnitCard) :
    (r.add card).morale = r.morale ∧ r.buff.morale = r.morale ∧
    r.deBuff.morale = r.morale ∧ r.clear.morale = r.morale ∧
    r.getRowStr.2.morale = r.morale ∧
    r.addMorale.morale = r.morale + 1 ∧ r.reset.morale = 0 ∧
    (Reachable r → 0 ≤ r.morale) ∧
    (r.morale ≤ (r.add card).morale ∧ r.morale ≤ r.buff.morale ∧
      r.morale ≤ r.deBuff.morale ∧ r.morale ≤ r.clear.morale ∧
      r.morale ≤ r.addMorale.morale ∧ r.morale ≤ r.getRowStr.2.morale) ∧
    new.addMorale.reset.morale < new.addMorale.morale := by
  have hg : r.getRowStr.2.morale = r.morale := by rw [getRowStr_eq]
  refine ⟨rfl, (buff_flags r).2.2, (deBuff_flags r).2.2, (clear_flags r).2.2, hg,
    (addMorale_flags r).2.2, (reset_flags r).2.2, reachable_morale_nonneg r, ?_, by decide⟩
  rw [(buff_flags r).2.2, (deBuff_flags r).2.2, (clear_flags r).2.2, hg,
    (addMorale_flags r).2.2]
  refine ⟨le_of_eq rfl, le_refl _, le_refl _, le_refl _, by omega, le_refl _⟩

/-- C15 at a concrete row: after two `addMorale` calls, a `buff` and a
`clear` on a fresh row the morale count 2 is at least 0. -/
theorem morale_discipline_witness : (0 : Int) ≤ new.addMorale.addMorale.buff.clear.morale :=
  (morale_discipline new.addMorale.addMorale.buff.clear plainFive).2.2.2.2.2.2.2.1
    (Reachable.clear _ (Reachable.buff _ (Reachable.addMorale _
      (Reachable.addMorale _ Reachable.fresh))))

/-! ## The sequential rule of `add`, and `buff` against `deBuff` -/

theorem addEffects_sequential (r : BoardRow) (card : UnitCard) (h : card.isHero = false) :
    r.addEffects card =
      card.setStrength (sequentialStrength r.deBuffed r.buffed r.morale card.currentStrength) := by
  rw [addEffects_eq r card h]
  cases hD : r.deBuffed <;> cases hB : r.buffed <;> by_cases hM : 1 ≤ r.morale <;>
    simp [sequentialStrength, hM]

theorem addEffects_ability (r : BoardRow) (card : UnitCard) (a : Int) :
    (r.addEffects { card with ability := a }).currentStrength =
      (r.addEffects card).currentStrength := by
  obtain ⟨S, x, hero, ab⟩ := card
  cases hero
  · rw [addEffects_eq r _ rfl, addEffects_eq r _ rfl]
    rfl
  · rw [addEffects_hero r _ rfl, addEffects_hero r _ rfl]

/-- C17: for every row state and every card that is no hero, `add` appends
the card with its current strength `c` replaced by the result of three steps
in this order: 1 instead of `c` if the row is debuffed, then plus the morale
count if that is at least 1, then times 2 if the row is buffed; the card's
ability does not change the result, and a hero is appended untouched. -/
theorem add_sequential (r : BoardRow) (card : UnitCard) :
    (card.isHero = false →
      (r.add card).cards =
        r.cards ++ [card.setStrength
          (sequentialStrength r.deBuffed r.buffed r.morale card.currentStrength)]) ∧
    (card.isHero = true → (r.add card).cards = r.cards ++ [card]) ∧
    (∀ a : Int,
      (r.add { card with ability := a }).cards.map (fun c => c.currentStrength) =
        (r.add card).cards.map (fun c => c.currentStrength)) := by
  refine ⟨?_, ?_, ?_⟩
  · intro h
    rw [add_cards, addEffects_sequential r card h]
  · intro h
    rw [add_cards, addEffects_hero r card h]
  · intro a
    rw [add_cards, add_cards]
    simp [addEffects_ability]

/-- C17 at concrete rows: on a buffed and debuffed row with morale 2 a
penalised card of base 5 is appended with strength (1 + 2) * 2 = 6, and a
hero of strength 10 is appended as it is. -/
theorem add_sequential_witness :
    (new.addMorale.addMorale.buff.deBuff.add moraleFive).cards =
        new.addMorale.addMorale.buff.deBuff.cards ++ [moraleFive.setStrength 6] ∧
      (new.addMorale.addMorale.buff.deBuff.add heroTen).cards =
        new.addMorale.addMorale.buff.deBuff.cards ++ [heroTen] :=
  ⟨(add_sequential new.addMorale.addMorale.buff.deBuff moraleFive).1 rfl,
   (add_sequential new.addMorale.addMorale.buff.deBuff heroTen).2.1 rfl⟩

theorem buff_deBuff_cards (r : BoardRow) :
    r.buff.deBuff.cards = r.cards.map (recompute (fun c =>
      if 1 ≤ r.morale then specStrength true true r.morale c.strength (c.ability == 1)
      else 2)) := by
  rw [deBuff_cards r.buff, buff_cards r, (buff_flags r).1, (buff_flags r).2.2]
  rw [map_recompute_recompute _ _ (fun c x => by simp)]
  simp

theorem deBuff_buff_cards (r : BoardRow) :
    r.deBuff.buff.cards = r.cards.map (recompute (fun c =>
      if 1 ≤ r.morale then specStrength true true r.morale c.strength (c.ability == 1)
      else 2)) := by
  rw [buff_cards r.deBuff, deBuff_cards r, (deBuff_flags r).1, (deBuff_flags r).2.1,
    (deBuff_flags r).2.2]
  rw [map_recompute_recompute _ _ (fun c x => by simp)]
  simp [specStrength]

/-- C18: for every row state with morale count 0, after `buff` directly
followed by `deBuff`, and after `deBuff` directly followed by `buff`, every
hero member is as before and every member that is no hero has current
strength 2. -/
theorem buff_deBuff_no_morale (r : BoardRow) (hM : r.morale = 0) :
    r.buff.deBuff.cards = r.cards.map (fun c => if c.isHero then c else c.setStrength 2) ∧
    r.deBuff.buff.cards = r.cards.map (fun c => if c.isHero then c else c.setStrength 2) := by
  rw [buff_deBuff_cards, deBuff_buff_cards]
  simp [recompute, hM]

/-- C18 at a concrete row: a plain card of base 5 next to a hero of strength
10, morale 0, has strength 2 after `buff` and `deBuff` in either order. -/
theorem buff_deBuff_no_morale_witness :
    ((new.add plainFive).add heroTen).buff.deBuff.cards = [plainFive.setStrength 2, heroTen] ∧
      ((new.add plainFive).add heroTen).deBuff.buff.cards = [plainFive.setStrength 2, heroTen] :=
  buff_deBuff_no_morale ((new.add plainFive).add heroTen) rfl

/-- C19: for every row state, `buff` followed by `deBuff` and `deBuff`
followed by `buff` end with the same buffed flag, debuffed flag, morale count
and members, current strengths included. -/
theorem buff_deBuff_commute (r : BoardRow) :
    r.buff.deBuff.buffed = r.deBuff.buff.buffed ∧
    r.buff.deBuff.deBuffed = r.deBuff.buff.deBuffed ∧
    r.buff.deBuff.morale = r.deBuff.buff.morale ∧
    r.buff.deBuff.cards = r.deBuff.buff.cards := by
  refine ⟨?_, ?_, ?_, ?_⟩
  · rw [(deBuff_flags r.buff).1, (buff_flags r).1, (buff_flags r.deBuff).1]
  · rw [(deBuff_flags r.buff).2.1, (buff_flags r.deBuff).2.1, (deBuff_flags r).2.1]
  · rw [(deBuff_flags r.buff).2.2, (buff_flags r).2.2, (buff_flags r.deBuff).2.2,
      (deBuff_flags r).2.2]
  · rw [buff_deBuff_cards, deBuff_buff_cards]

/-! ## No negative strength -/

theorem specStrength_nonneg (D B P : Bool) (M S : Int) (hM : 1 ≤ M) (hS : 0 ≤ S) :
    0 ≤ specStrength D B M S P := by
  cases D <;> cases B <;> cases P <;> simp [specStrength] <;> omega

theorem recompute_strength (v : UnitCard → Int) (c : UnitCard) :
    (recompute v c).strength = c.strength := by
  cases h : c.isHero <;> simp [recompute, h]

theorem mem_recompute_nonneg (v : UnitCard → Int) (l : List UnitCard)
    (hl : ∀ c ∈ l, 0 ≤ c.strength → 0 ≤ c.currentStrength)
    (hv : ∀ c : UnitCard, 0 ≤ c.strength → 0 ≤ v c) :
    ∀ c ∈ l.map (recompute v), 0 ≤ c.strength → 0 ≤ c.currentStrength := by
  intro c hc hS
  obtain ⟨d, hd, rfl⟩ := List.mem_map.mp hc
  rw [recompute_strength] at hS
  cases h : d.isHero
  · simp only [recompute, h, Bool.false_eq_true, if_false, setStrength_currentStrength]
    exact hv d hS
  · rw [recompute_hero v d h]
    exact hl d hd hS

theorem reachable_strength_nonneg (r : BoardRow) (h : Reachable r) :
    ∀ c ∈ r.cards, 0 ≤ c.strength → 0 ≤ c.currentStrength := by
  induction h with
  | fresh => intro c hc; simp [BoardRow.new] at hc
  | add r card hr hcard ih =>
    intro c hc hS
    rw [add_cards, List.mem_append, List.mem_singleton] at hc
    rcases hc with hc | hc
    · exact ih c hc hS
    · subst hc
      have hM := reachable_morale_nonneg r hr
      cases hh : card.isHero
      · rw [addEffects_eq r card hh] at hS ⊢
        simp only [setStrength_strength] at hS
        simp only [setStrength_currentStrength, hcard]
        apply mul_nonneg
        · apply add_nonneg
          · split <;> omega
          · split <;> omega
        · split <;> omega
      · rw [addEffects_hero r card hh] at hS ⊢
        rw [hcard]
        exact hS
  | buff r _ ih =>
    rw [buff_cards]
    apply mem_recompute_nonneg _ _ ih
    intro c hS
    by_cases hM : 1 ≤ r.morale
    · have := specStrength_nonneg true r.buffed (c.ability == 1) r.morale c.strength hM hS
      split
      · simpa [hM] using this
      · omega
    · split
      · simp [hM]
      · omega
  | deBuff r _ ih =>
    rw [deBuff_cards]
    apply mem_recompute_nonneg _ _ ih
    intro c hS
    by_cases hM : 1 ≤ r.morale
    · simpa [hM] using
        specStrength_nonneg true r.buffed (c.ability == 1) r.morale c.strength hM hS
    · simp only [hM, if_false]
      split <;> omega
  | addMorale r hr ih =>
    rw [addMorale_cards]
    apply mem_recompute_nonneg _ _ ih
    intro c hS
    have hM := reachable_morale_nonneg r hr
    exact specStrength_nonneg _ _ _ _ _ (by omega) hS
  | clear r _ ih =>
    rw [clear_cards]
    apply mem_recompute_nonneg _ _ ih
    intro c hS
    by_cases hM : 1 ≤ r.morale
    · simpa [hM] using
        specStrength_nonneg false r.buffed (c.ability == 1) r.morale c.strength hM hS
    · simp only [hM, if_false]
      split <;> omega
  | reset r _ ih =>
    rw [reset_cards]
    apply mem_recompute_nonneg _ _ ih
    intro c hS
    exact hS

theorem reachableNonneg_reachable (r : BoardRow) (h : ReachableNonneg r) : Reachable r := by
  induction h with
  | fresh => exact Reachable.fresh
  | add r card _ hcard _ ih => exact Reachable.add r card ih hcard
  | buff r _ ih => exact Reachable.buff r ih
  | deBuff r _ ih => exact Reachable.deBuff r ih
  | addMorale r _ ih => exact Reachable.addMorale r ih
  | clear r _ ih => exact Reachable.clear r ih
  | reset r _ ih => exact Reachable.reset r ih

theorem mem_recompute_base (v : UnitCard → Int) (l : List UnitCard)
    (hl : ∀ c ∈ l, 0 ≤ c.strength) : ∀ c ∈ l.map (recompute v), 0 ≤ c.strength := by
  intro c hc
  obtain ⟨d, hd, rfl⟩ := List.mem_map.mp hc
  rw [recompute_strength]
  exact hl d hd

theorem reachableNonneg_base (r : BoardRow) (h : ReachableNonneg r) :
    ∀ c ∈ r.cards, 0 ≤ c.strength := by
  induction h with
  | fresh => intro c hc; simp [BoardRow.new] at hc
  | add r card _ _ hS ih =>
    intro c hc
    rw [add_cards, List.mem_append, List.mem_singleton] at hc
    rcases hc with hc | hc
    · exact ih c hc
    · subst hc
      have hid := cardIdentity_addEffects r card
      simp only [cardIdentity, Prod.mk.injEq] at hid
      rw [hid.1]
      exact hS
  | buff r _ ih => rw [buff_cards]; exact mem_recompute_base _ _ ih
  | deBuff r _ ih => rw [deBuff_cards]; exact mem_recompute_base _ _ ih
  | addMorale r _ ih => rw [addMorale_cards]; exact mem_recompute_base _ _ ih
  | clear r _ ih => rw [clear_cards]; exact mem_recompute_base _ _ ih
  | reset r _ ih => rw [reset_cards]; exact mem_recompute_base _ _ ih

/-- C20: in every state reached from a fresh row by `add`, `buff`, `deBuff`,
`addMorale`, `clear` and `reset`, where every card is added with its current
strength equal to its base strength and a base strength of at least 0, every
member has a current strength of at least 0; the morale count is at least 0,
so the morale pass that `addMorale` runs sees a count of at least 1. -/
theorem strength_nonneg (r : BoardRow) (h : ReachableNonneg r) :
    (∀ c ∈ r.cards, 0 ≤ c.currentStrength) ∧ 0 ≤ r.morale ∧ 1 ≤ r.addMorale.morale := by
  have hr := reachableNonneg_reachable r h
  have hM := reachable_morale_nonneg r hr
  refine ⟨?_, hM, ?_⟩
  · intro c hc
    exact reachable_strength_nonneg r hr c hc (reachableNonneg_base r h c hc)
  · rw [(addMorale_flags r).2.2]
    omega

/-- C20 at a concrete row: a penalised card of base 0 on a row that was
boosted once and then debuffed has strength 1, which is at least 0. -/
theorem strength_nonneg_witness :
    (0 : Int) ≤
      ({ strength := 0, currentStrength := 1, isHero := false, ability := 1 } :
        UnitCard).currentStrength :=
  (strength_nonneg
    ((new.add { strength := 0, currentStrength := 0, isHero := false, ability := 1 }).addMorale.deBuff)
    (ReachableNonneg.deBuff _ (ReachableNonneg.addMorale _
      (ReachableNonneg.add _ _ ReachableNonneg.fresh rfl (by decide))))).1
    { strength := 0, currentStrength := 1, isHero := false, ability := 1 } (by decide)

/-! ## The membership frame, on pointers -/

theorem keepsMembers_refl (s : HeapRow) : KeepsMembers s s := ⟨rfl, fun _ => rfl⟩

theorem keepsMembers_trans (s t u : HeapRow) (h1 : KeepsMembers s t) (h2 : KeepsMembers t u) :
    KeepsMembers s u :=
  ⟨h2.1.trans h1.1, fun a => (h2.2 a).trans (h1.2 a)⟩

theorem keepsMembers_of_eq (s t : HeapRow) (hc : t.cards = s.cards) (hh : t.heap = s.heap) :
    KeepsMembers s t :=
  ⟨hc, fun a => by rw [hh]⟩

theorem setStrengthOf_heap_ne (s : HeapRow) (p : Nat) (v : Int) (a : Nat) (h : a ≠ p) :
    (s.setStrengthOf p v).heap a = s.heap a := by
  simp [HeapRow.setStrengthOf, h]

theorem keepsMembers_setStrengthOf (s : HeapRow) (p : Nat) (v : Int) :
    KeepsMembers s (s.setStrengthOf p v) := by
  refine ⟨rfl, fun a => ?_⟩
  by_cases h : a = p
  · subst h
    simp [HeapRow.setStrengthOf, cardIdentity]
  · rw [setStrengthOf_heap_ne s p v a h]

theorem keepsMembers_accumulateOf (s : HeapRow) (p : Nat) :
    KeepsMembers s (s.accumulateOf p) :=
  keepsMembers_of_eq _ _ rfl rfl

theorem cardIdentity_moraleBoostCard (B D : Bool) (M : Int) (c : UnitCard) :
    cardIdentity (moraleBoostCard B D M c) = cardIdentity c := by
  rw [moraleBoostCard_recompute]
  exact cardIdentity_recompute _ c

theorem foldl_visit_identity (g : UnitCard → UnitCard)
    (hg : ∀ c : UnitCard, cardIdentity (g c) = cardIdentity c) (l : List Nat) :
    ∀ (h : Nat → UnitCard) (a : Nat),
      cardIdentity
        ((l.foldl (fun (h : Nat → UnitCard) (p : Nat) => fun a => if a = p then g (h p) else h a)
          h) a) = cardIdentity (h a) := by
  induction l with
  | nil => intro h a; rfl
  | cons p l ih =>
    intro h a
    rw [List.foldl_cons, ih]
    by_cases hap : a = p
    · subst hap
      simp [hg]
    · simp [hap]

theorem keepsMembers_moraleBoost (s : HeapRow) : KeepsMembers s s.moraleBoost :=
  ⟨rfl, fun a => foldl_visit_identity _ (cardIdentity_moraleBoostCard _ _ _) s.cards s.heap a⟩

theorem keepsMembers_forLoop (body : Nat → HeapRow → HeapRow)
    (hb : ∀ (i : Nat) (s : HeapRow), KeepsMembers s (body i s)) :
    ∀ (n : Nat) (s : HeapRow), KeepsMembers s (forLoop body n s) := by
  intro n
  induction n with
  | zero => intro s; exact keepsMembers_refl s
  | succ n ih =>
    intro s
    exact keepsMembers_trans _ _ _ (ih s) (hb n _)

theorem keepsMembers_buffBody (i : Nat) (s : HeapRow) : KeepsMembers s (HeapRow.buffBody i s) := by
  unfold HeapRow.buffBody
  cases s.cards[i]? with
  | none => exact keepsMembers_refl s
  | some p =>
    simp only
    refine keepsMembers_trans _ _ _ ?_ (keepsMembers_accumulateOf _ p)
    split
    · exact keepsMembers_setStrengthOf _ _ _
    · split
      · split
        · exact keepsMembers_trans _ _ _ (keepsMembers_setStrengthOf _ _ _)
            (keepsMembers_moraleBoost _)
        · exact keepsMembers_setStrengthOf _ _ _
      · exact keepsMembers_refl s

theorem keepsMembers_deBuffBody (i : Nat) (s : HeapRow) :
    KeepsMembers s (HeapRow.deBuffBody i s) := by
  unfold HeapRow.deBuffBody
  cases s.cards[i]? with
  | none => exact keepsMembers_refl s
  | some p =>
    simp only
    refine keepsMembers_trans _ _ _ ?_ (keepsMembers_accumulateOf _ p)
    split
    · exact keepsMembers_setStrengthOf _ _ _
    · split
      · exact keepsMembers_setStrengthOf _ _ _
      · exact keepsMembers_refl s

theorem keepsMembers_clearBody (i : Nat) (s : HeapRow) :
    KeepsMembers s (HeapRow.clearBody i s) := by
  unfold HeapRow.clearBody
  cases s.cards[i]? with
  | none => exact keepsMembers_refl s
  | some p =>
    simp only
    refine keepsMembers_trans _ _ _ ?_ (keepsMembers_accumulateOf _ p)
    split
    · exact keepsMembers_setStrengthOf _ _ _
    · exact keepsMembers_refl s

theorem keepsMembers_buff (s : HeapRow) : KeepsMembers s s.buff := by
  have h1 : KeepsMembers s { s with rowStrength := 0 } := keepsMembers_of_eq _ _ rfl rfl
  have h2 := keepsMembers_forLoop HeapRow.buffBody keepsMembers_buffBody s.cards.length
    { s with rowStrength := 0 }
  exact keepsMembers_trans _ _ _ (keepsMembers_trans _ _ _ h1 h2) (keepsMembers_of_eq _ _ rfl rfl)

theorem keepsMembers_ite (c : Prop) [Decidable c] (s a b : HeapRow)
    (ha : KeepsMembers s a) (hb : KeepsMembers s b) : KeepsMembers s (if c then a else b) := by
  split
  · exact ha
  · exact hb

theorem keepsMembers_boostIf (t : HeapRow) :
    KeepsMembers t (if t.morale ≥ 1 then t.moraleBoost else t) :=
  keepsMembers_ite _ _ _ _ (keepsMembers_moraleBoost t) (keepsMembers_refl t)

theorem keepsMembers_buffIf (t : HeapRow) :
    KeepsMembers t (if t.buffed then t.buff else t) :=
  keepsMembers_ite _ _ _ _ (keepsMembers_buff t) (keepsMembers_refl t)

theorem keepsMembers_deBuff (s : HeapRow) : KeepsMembers s s.deBuff := by
  have h1 : KeepsMembers s { s with rowStrength := 0 } := keepsMembers_of_eq _ _ rfl rfl
  have h2 := keepsMembers_forLoop HeapRow.deBuffBody keepsMembers_deBuffBody s.cards.length
    { s with rowStrength := 0 }
  have h3 := keepsMembers_trans _ _ _ (keepsMembers_trans _ _ _ h1 h2)
    (keepsMembers_of_eq _
      { forLoop HeapRow.deBuffBody s.cards.length { s with rowStrength := 0 } with
        deBuffed := true } rfl rfl)
  exact keepsMembers_trans _ _ _ h3 (keepsMembers_boostIf _)

theorem keepsMembers_clear (s : HeapRow) : KeepsMembers s s.clear := by
  have h1 : KeepsMembers s { s with rowStrength := 0 } := keepsMembers_of_eq _ _ rfl rfl
  have h2 := keepsMembers_forLoop HeapRow.clearBody keepsMembers_clearBody s.cards.length
    { s with rowStrength := 0 }
  have h3 := keepsMembers_trans _ _ _ (keepsMembers_trans _ _ _ h1 h2)
    (keepsMembers_of_eq _
      { forLoop HeapRow.clearBody s.cards.length { s with rowStrength := 0 } with
        deBuffed := false } rfl rfl)
  exact keepsMembers_trans _ _ _ (keepsMembers_trans _ _ _ h3 (keepsMembers_buffIf _))
    (keepsMembers_boostIf _)

theorem keepsMembers_addMorale (s : HeapRow) : KeepsMembers s s.addMorale :=
  keepsMembers_trans _ _ _
    (keepsMembers_of_eq s { s with morale := s.morale + 1 } rfl rfl)
    (keepsMembers_moraleBoost _)

theorem keepsMembers_reset (s : HeapRow) : KeepsMembers s s.reset :=
  keepsMembers_trans _ _ _
    (keepsMembers_trans _ _ _
      (keepsMembers_of_eq s { s with buffed := false, deBuffed := false, morale := 0 } rfl rfl)
      (keepsMembers_clear _))
    (keepsMembers_of_eq _ _ rfl rfl)

theorem getRowStr_foldl_frame (l : List Nat) :
    ∀ s : HeapRow,
      (l.foldl (fun (t : HeapRow) p => t.accumulateOf p) s).cards = s.cards ∧
      (l.foldl (fun (t : HeapRow) p => t.accumulateOf p) s).heap = s.heap := by
  induction l with
  | nil => intro s; exact ⟨rfl, rfl⟩
  | cons p l ih =>
    intro s
    rw [List.foldl_cons]
    exact ih (s.accumulateOf p)

theorem keepsMembers_getRowStr (s : HeapRow) : KeepsMembers s s.getRowStr.2 := by
  have h := getRowStr_foldl_frame s.cards { s with rowStrength := 0 }
  exact keepsMembers_of_eq _ _ h.1 h.2

theorem heapAdd_cards (s : HeapRow) (p : Nat) : (s.add p).cards = s.cards ++ [p] := by
  unfold HeapRow.add
  cases hh : (s.heap p).isHero <;> cases hD : s.deBuffed <;> cases hB : s.buffed <;>
    by_cases hM : s.morale ≥ 1 <;> simp [HeapRow.setStrengthOf, hM, hD, hB]

theorem heapAdd_flags (s : HeapRow) (p : Nat) :
    (s.add p).buffed = s.buffed ∧ (s.add p).deBuffed = s.deBuffed ∧
      (s.add p).morale = s.morale := by
  unfold HeapRow.add
  cases hh : (s.heap p).isHero <;> cases hD : s.deBuffed <;> cases hB : s.buffed <;>
    by_cases hM : s.morale ≥ 1 <;> simp [HeapRow.setStrengthOf, hM, hD, hB]

theorem heapAdd_heap_ne (s : HeapRow) (p a : Nat) (h : a ≠ p) :
    (s.add p).heap a = s.heap a := by
  unfold HeapRow.add
  cases hh : (s.heap p).isHero <;> cases hD : s.deBuffed <;> cases hB : s.buffed <;>
    by_cases hM : s.morale ≥ 1 <;> simp [HeapRow.setStrengthOf, hM, hD, hB, h]

theorem heapAdd_heap_self (s : HeapRow) (p : Nat) :
    (s.add p).heap p = s.view.addEffects (s.heap p) := by
  unfold HeapRow.add BoardRow.addEffects
  cases hh : (s.heap p).isHero <;> cases hD : s.deBuffed <;> cases hB : s.buffed <;>
    by_cases hM : s.morale ≥ 1 <;>
    simp [HeapRow.setStrengthOf, HeapRow.view, hM, hD, hB, UnitCard.getStrength]

theorem heapAdd_identity (s : HeapRow) (p a : Nat) :
    cardIdentity ((s.add p).heap a) = cardIdentity (s.heap a) := by
  by_cases h : a = p
  · subst h
    rw [heapAdd_heap_self]
    exact cardIdentity_addEffects _ _
  · rw [heapAdd_heap_ne s p a h]

theorem heapAdd_hero (s : HeapRow) (p : Nat) (h : (s.heap p).isHero = true) :
    (s.add p).heap = s.heap := by
  unfold HeapRow.add
  simp [h]

theorem boardRow_eq (x y : BoardRow) (h1 : x.cards = y.cards) (h2 : x.rowPosition = y.rowPosition)
    (h3 : x.buffed = y.buffed) (h4 : x.deBuffed = y.deBuffed) (h5 : x.morale = y.morale)
    (h6 : x.rowStrength = y.rowStrength) : x = y := by
  cases x
  cases y
  simp only at h1 h2 h3 h4 h5 h6
  subst h1 h2 h3 h4 h5 h6
  rfl

theorem heapAdd_rest (s : HeapRow) (p : Nat) :
    (s.add p).rowPosition = s.rowPosition ∧ (s.add p).rowStrength = s.rowStrength := by
  unfold HeapRow.add
  cases hh : (s.heap p).isHero <;> cases hD : s.deBuffed <;> cases hB : s.buffed <;>
    by_cases hM : s.morale ≥ 1 <;> simp [HeapRow.setStrengthOf, hM, hD, hB]

theorem add_view (s : HeapRow) (p : Nat) (hp : p ∉ s.cards) :
    (s.add p).view = s.view.add (s.heap p) := by
  apply boardRow_eq
  · show (s.add p).cards.map (s.add p).heap = s.cards.map s.heap ++ [s.view.addEffects (s.heap p)]
    rw [heapAdd_cards, List.map_append, List.map_singleton, heapAdd_heap_self]
    congr 1
    apply List.map_congr_left
    intro a ha
    exact heapAdd_heap_ne s p a (fun h => hp (h ▸ ha))
  · exact (heapAdd_rest s p).1
  · exact (heapAdd_flags s p).1
  · exact (heapAdd_flags s p).2.1
  · exact (heapAdd_flags s p).2.2
  · exact (heapAdd_rest s p).2

/-- C16, refuted as stated: on a buffed row whose only member is the plain
card at address 0, with current strength 10, `add` of that same card appends
it and doubles its strength, so the earlier member now has strength 20. -/
theorem membership_frame_counterexample :
    buffedRowOfFive.cards = [0] ∧ (buffedRowOfFive.heap 0).currentStrength = 10 ∧
    (buffedRowOfFive.add 0).cards = [0, 0] ∧
    ((buffedRowOfFive.add 0).heap 0).currentStrength = 20 := by
  decide

/-- C16, amended: for every row state, `buff`, `deBuff`, `addMorale`,
`clear`, `reset` and `getRowStr` keep the member sequence, pointer by pointer,
and the base strength, hero flag and ability of every card; `add` yields the
previous sequence followed by exactly the given card, keeps the base
strength, hero flag and ability of every card, both flags and the morale
count, and changes no card object other than the given one: the current
strengths of the earlier members are as before when the given card is not
already a member, and no strength changes at all when it is a hero. -/
theorem membership_frame (s : HeapRow) (card : Nat) :
    KeepsMembers s s.buff ∧ KeepsMembers s s.deBuff ∧ KeepsMembers s s.addMorale ∧
    KeepsMembers s s.clear ∧ KeepsMembers s s.reset ∧ KeepsMembers s s.getRowStr.2 ∧
    (s.add card).cards = s.cards ++ [card] ∧
    (∀ a : Nat, cardIdentity ((s.add card).heap a) = cardIdentity (s.heap a)) ∧
    (s.add card).buffed = s.buffed ∧ (s.add card).deBuffed = s.deBuffed ∧
    (s.add card).morale = s.morale ∧
    (∀ a : Nat, a ≠ card → (s.add card).heap a = s.heap a) ∧
    (card ∉ s.cards → ∀ a ∈ s.cards,
      ((s.add card).heap a).currentStrength = (s.heap a).currentStrength) ∧
    ((s.heap card).isHero = true → (s.add card).heap = s.heap) := by
  refine ⟨keepsMembers_buff s, keepsMembers_deBuff s, keepsMembers_addMorale s,
    keepsMembers_clear s, keepsMembers_reset s, keepsMembers_getRowStr s,
    heapAdd_cards s card, heapAdd_identity s card, (heapAdd_flags s card).1,
    (heapAdd_flags s card).2.1, (heapAdd_flags s card).2.2, heapAdd_heap_ne s card, ?_,
    heapAdd_hero s card⟩
  intro hp a ha
  rw [heapAdd_heap_ne s card a (fun h => hp (h ▸ ha))]

/-- The amended C16 at a concrete row: on the buffed row whose member is the
card at address 0, `add` of the card at address 1 leaves the member at
strength 10, and `add` of a hero changes no card. -/
theorem membership_frame_witness :
    ((buffedRowOfFive.add 1).heap 0).currentStrength = (buffedRowOfFive.heap 0).currentStrength ∧
      ((HeapRow.new (fun _ => heroTen)).buff.add 0).heap = (HeapRow.new (fun _ => heroTen)).buff.heap :=
  ⟨(membership_frame buffedRowOfFive 1).2.2.2.2.2.2.2.2.2.2.2.2.1 (by decide) 0 (by decide),
   (membership_frame (HeapRow.new (fun _ => heroTen)).buff 0).2.2.2.2.2.2.2.2.2.2.2.2.2 rfl⟩

end Team7
